import Mathlib

set_option maxRecDepth 4000
set_option maxHeartbeats 1000000

/-!
Shallow embedding of the conversational tool-calling engine of the
DBDocumenter repository: `DirectOpenAIAgent` (src/agent.py) and
`DuckDBRuntime` (src/server/runtime.py).  Python strings are modelled as
`List Char`; Python `None` and the empty string are both falsy and are
modelled by `[]`.
-/

/-! ## Message model -/

/-- Message roles used by the engine (src/agent.py, src/server/runtime.py). -/
inductive Role where
  | system
  | user
  | assistant
  | tool
  deriving DecidableEq

/-- One entry of an assistant message's `tool_calls` list:
`{"id": ..., "function": {"name": ..., "arguments": ...}}`. -/
structure ToolCallData where
  id : List Char
  name : List Char
  arguments : List Char
  deriving DecidableEq

/-- One conversation message.  `content`, `toolCalls` and `toolCallId` use
`[]` for Python `None` (both are falsy wherever the source tests them). -/
structure Msg where
  role : Role
  content : List Char
  toolCalls : List ToolCallData
  toolCallId : List Char
  deriving DecidableEq

/-- A `tool` role message carrying a tool result (agent.py lines 529-533). -/
def toolMsg (tcId content : List Char) : Msg :=
  { role := Role.tool, content := content, toolCalls := [], toolCallId := tcId }

/-- An `assistant` message carrying tool calls (agent.py lines 425-429). -/
def mkAssistant (content : List Char) (tcs : List ToolCallData) : Msg :=
  { role := Role.assistant, content := content, toolCalls := tcs, toolCallId := [] }

/-- Content of the tool messages synthesized by `_sanitize_history`
(runtime.py lines 2072-2074). -/
def interruptedContent : List Char :=
  "Error: Tool execution was interrupted or response was lost.".toList

/-- The tool message synthesized by `_sanitize_history` for an orphan id. -/
def synthToolMsg (tcId : List Char) : Msg := toolMsg tcId interruptedContent

/-! ## `DuckDBRuntime._sanitize_history` (runtime.py lines 2053-2102)

The Python dict `pending_tool_calls` is modelled by its key list in
insertion order (only the keys are ever used); re-inserting a present key
keeps its position, so insertion skips present ids. -/

/-- Dict insertion `pending_tool_calls[tc_id] = tc` for a truthy id: a
present key keeps its position, an absent one is appended. -/
def insertPendingId (p : List (List Char)) (tc : ToolCallData) : List (List Char) :=
  if tc.id ≠ [] ∧ tc.id ∉ p then p ++ [tc.id] else p

/-- Pending-id update for one message: assistant messages with tool calls
add their (truthy) ids, tool messages delete their `tool_call_id`
(runtime.py lines 2080-2090). -/
def updatePending (pending : List (List Char)) (m : Msg) : List (List Char) :=
  match m.role with
  | Role.assistant =>
      if m.toolCalls ≠ [] then m.toolCalls.foldl insertPendingId pending
      else pending
  | Role.tool => pending.filter (fun i => i ≠ m.toolCallId)
  | _ => pending

/-- The walk of `_sanitize_history`: close all pending ids before any
non-tool message, and at end-of-list (runtime.py lines 2061-2100). -/
def sanitizeAux (pending : List (List Char)) : List Msg → List Msg
  | [] => pending.map synthToolMsg
  | m :: rest =>
      if pending ≠ [] ∧ m.role ≠ Role.tool then
        pending.map synthToolMsg ++ m :: sanitizeAux (updatePending [] m) rest
      else
        m :: sanitizeAux (updatePending pending m) rest

/-- `DuckDBRuntime._sanitize_history`. -/
def sanitizeHistory (history : List Msg) : List Msg := sanitizeAux [] history

/-- Decision procedure for "the sanitize walk over this list performs no
insertion and ends with no pending ids": true iff every tool-call id is
answered before the next non-tool message and before end-of-list. -/
def checkNoOrphans (pending : List (List Char)) : List Msg → Bool
  | [] => pending.isEmpty
  | m :: rest =>
      if pending ≠ [] ∧ m.role ≠ Role.tool then false
      else checkNoOrphans (updatePending pending m) rest

/-! ## String utilities (Python `str` operations over `List Char`) -/

/-- Python `s.startswith(pat)` / prefix test. -/
def isPre : List Char → List Char → Bool
  | [], _ => true
  | _ :: _, [] => false
  | a :: as, b :: bs => a == b && isPre as bs

/-- Python `pat in s` substring test. -/
def hasSub (pat : List Char) : List Char → Bool
  | [] => pat.isEmpty
  | c :: cs => isPre pat (c :: cs) || hasSub pat cs

/-- Python `s.find(pat)`: index of the first occurrence (`none` = -1). -/
def findSubIdx (pat : List Char) : List Char → Option Nat
  | [] => if pat.isEmpty then some 0 else none
  | c :: cs =>
      if isPre pat (c :: cs) then some 0
      else (findSubIdx pat cs).map (· + 1)

/-- Python `s.lower()` (ASCII-faithful). -/
def lowerStr (s : List Char) : List Char := s.map Char.toLower

/-- Python whitespace test for `str.strip()` (ASCII subset). -/
def pyIsSpace (c : Char) : Bool :=
  c == ' ' || c == '\t' || c == '\n' || c == '\r' || c == '\x0b' || c == '\x0c'

/-- Python `s.strip()`. -/
def pyStrip (s : List Char) : List Char :=
  ((s.dropWhile pyIsSpace).reverse.dropWhile pyIsSpace).reverse

/-- Python `line.rstrip("\r")`. -/
def rstripCR (s : List Char) : List Char :=
  (s.reverse.dropWhile (fun c => c == '\r')).reverse

/-- Python `s.split(sep)` for a one-character separator. -/
def splitOnChar (sep : Char) : List Char → List (List Char)
  | [] => [[]]
  | c :: cs =>
      let r := splitOnChar sep cs
      if c == sep then [] :: r
      else
        match r with
        | [] => [[c]]
        | h :: t => (c :: h) :: t

/-- Python `lst[-n:]` (note: `lst[-0:]` is the whole list). -/
def pyTail (n : Nat) (l : List Msg) : List Msg :=
  if n = 0 then l else l.drop (l.length - n)

/-! ## `DirectOpenAIAgent._trim_conversation_history` (agent.py lines 241-259) -/

/-- Trim the conversation history: keep all system messages plus the most
recent `maxHistoryMessages` other messages, unless the history is already
within `maxHistoryMessages + 1` messages. -/
def trimConversationHistory (maxHistoryMessages : Nat) (history : List Msg) : List Msg :=
  if history.length ≤ maxHistoryMessages + 1 then history
  else
    let systemMessages := history.filter (fun m => m.role == Role.system)
    let otherMessages := history.filter (fun m => m.role != Role.system)
    let otherMessages :=
      if otherMessages.length > maxHistoryMessages then pyTail maxHistoryMessages otherMessages
      else otherMessages
    systemMessages ++ otherMessages

/-! ## Rate-limit retry (agent.py lines 353-398) -/

/-- ASCII digit test for the regex `\d`. -/
def isDigitChar (c : Char) : Bool := '0' ≤ c && c ≤ '9'

/-- `int(...)` on a digit string. -/
def digitsToNat (ds : List Char) : Nat :=
  ds.foldl (fun n c => 10 * n + (c.toNat - '0'.toNat)) 0

/-- Match the regex `retry after (\d+) seconds` at the start of `s`
(already lowercased): literal, one-or-more digits, literal. -/
def matchRetryAfterAt (s : List Char) : Option Nat :=
  let pat := "retry after ".toList
  if isPre pat s then
    let rest := s.drop pat.length
    let ds := rest.takeWhile isDigitChar
    let rest2 := rest.drop ds.length
    if ds ≠ [] ∧ isPre (" seconds".toList) rest2 then some (digitsToNat ds) else none
  else none

/-- Leftmost match of the retry-after pattern. -/
def findRetryAfter : List Char → Option Nat
  | [] => none
  | c :: cs =>
      match matchRetryAfterAt (c :: cs) with
      | some n => some n
      | none => findRetryAfter cs

/-- `re.search(r"retry after (\d+) seconds", str(e), re.IGNORECASE)` plus
`int(match.group(1))` (agent.py lines 377-379). -/
def parseRetryAfter (s : List Char) : Option Nat := findRetryAfter (lowerStr s)

/-- The backoff before retry number `retryCount`: the provider-suggested
value plus a 5-second buffer when stated, else `20 * retryCount`
(agent.py lines 372-379). -/
def computeWait (errMsg : List Char) (retryCount : Nat) : Nat :=
  match parseRetryAfter errMsg with
  | some n => n + 5
  | none => 20 * retryCount

/-- One assistant-turn response from the model provider: content (with `[]`
for `None`), normalized tool calls, and token usage. -/
structure AssistantResponse where
  content : List Char
  toolCalls : List ToolCallData
  promptTokens : Nat
  completionTokens : Nat
  deriving DecidableEq

/-- Outcome of one `chat.completions.create` call: success, a
`RateLimitError`, or an `APIConnectionError`. -/
inductive CallResult where
  | success (resp : AssistantResponse)
  | rateLimit (errMsg : List Char)
  | connectionError (errMsg : List Char)
  deriving DecidableEq

/-- Outcome of the retry loop: the response, or the exception that escaped,
together with the number of attempts made and the sleeps performed. -/
inductive RetryOutcome where
  | ok (resp : AssistantResponse) (attempts : Nat) (waits : List Nat)
  | rateLimitExceeded (attempts : Nat) (waits : List Nat)
  | connectionFailed (attempts : Nat) (waits : List Nat)
  deriving DecidableEq

/-- The `while True` retry loop of agent.py lines 358-385, indexed by the
remaining retry budget (`retriesLeft = max_retries - retry_count`,
`max_retries = 3`).  `provider` gives the result of each successive
attempt; `base` counts attempts made before this call. -/
def retryLoop (provider : Nat → CallResult) (base : Nat) :
    Nat → Nat → List Nat → RetryOutcome
  | 0, attemptIdx, waits =>
      match provider (base + attemptIdx) with
      | CallResult.success r => RetryOutcome.ok r (attemptIdx + 1) waits
      | CallResult.connectionError _ => RetryOutcome.connectionFailed (attemptIdx + 1) waits
      | CallResult.rateLimit _ => RetryOutcome.rateLimitExceeded (attemptIdx + 1) waits
  | Nat.succ k, attemptIdx, waits =>
      match provider (base + attemptIdx) with
      | CallResult.success r => RetryOutcome.ok r (attemptIdx + 1) waits
      | CallResult.connectionError _ => RetryOutcome.connectionFailed (attemptIdx + 1) waits
      | CallResult.rateLimit msg =>
          retryLoop provider base k (attemptIdx + 1) (waits ++ [computeWait msg (3 - k)])

/-- The full provider call with retry: `max_retries = 3` (agent.py line 354). -/
def callWithRetry (provider : Nat → CallResult) (base : Nat) : RetryOutcome :=
  retryLoop provider base 3 0 []

/-! ## Tool dispatch (agent.py lines 437-533) -/

/-- A parsed JSON argument object, modelled as string key/value pairs. -/
abbrev Args := List (List Char × List Char)

/-- Python `dict.get(key)`. -/
def argsGet (args : Args) (key : List Char) : Option (List Char) :=
  match args.find? (fun kv => kv.fst == key) with
  | some kv => some kv.snd
  | none => none

/-- Python `dict.get(key)` with `None ↦ []`. -/
def argsGetD (args : Args) (key : List Char) : List Char := (argsGet args key).getD []

def qName : List Char := "duckdb_query".toList
def sName : List Char := "duckdb_schema".toList
def cName : List Char := "duckdb_chart".toList

/-- External collaborators of the engine, abstracted: `json.loads` on the
tool-call arguments string (`Except.error` = a raised `JSONDecodeError`),
the three tool handlers (`Except.error` = a raised exception, message as
`str(e)`), and the chart-JSON check of the post-processor (`json.loads`
succeeding with key `chart_type` or `labels` present, agent.py lines
562-570). -/
structure EngineParams where
  parseArgs : List Char → Except (List Char) Args
  queryTool : Args → Except (List Char) (List Char)
  schemaTool : Args → Except (List Char) (List Char)
  chartTool : Args → Except (List Char) (List Char)
  chartLike : List Char → Bool

/-- `str(KeyError(key))` is the repr of the key. -/
def keyErrorMsg (key : List Char) : List Char := '\'' :: key ++ ['\'']

/-- The body of the `try` block for one tool call (agent.py lines 477-507):
the three known tools call their handler (a missing required key raises
`KeyError` like `function_args["sql"]` does), any other name yields the
`Unknown function` text. -/
def execToolBody (P : EngineParams) (functionName : List Char) (args : Args) :
    Except (List Char) (List Char) :=
  if functionName = qName then
    match argsGet args ("sql".toList) with
    | none => Except.error (keyErrorMsg ("sql".toList))
    | some _ => P.queryTool args
  else if functionName = sName then
    match argsGet args ("action".toList) with
    | none => Except.error (keyErrorMsg ("action".toList))
    | some _ => P.schemaTool args
  else if functionName = cName then
    match argsGet args ("sql".toList) with
    | none => Except.error (keyErrorMsg ("sql".toList))
    | some _ => P.chartTool args
  else Except.ok ("Unknown function: ".toList ++ functionName)

/-- Dispatch of a single requested tool call (agent.py lines 437-511).
`json.loads(tool_call["function"]["arguments"])` runs before the `try`
block, so a parse failure propagates (`Except.error`); for `duckdb_query`
the agent records `_last_sql_query`/`_last_implementation_plan` from the
parsed arguments before calling the handler; a handler exception is caught
and becomes the `Error executing` text.  Returns the textual tool result
together with the updated last-SQL and last-plan values. -/
def dispatchToolCall (P : EngineParams) (lastSql lastPlan : List Char)
    (functionName argumentsStr : List Char) :
    Except (List Char) (List Char × List Char × List Char) :=
  match P.parseArgs argumentsStr with
  | Except.error e => Except.error e
  | Except.ok args =>
      let lastSql' := if functionName = qName then argsGetD args ("sql".toList) else lastSql
      let lastPlan' := if functionName = qName then argsGetD args ("plan".toList) else lastPlan
      let result :=
        match execToolBody P functionName args with
        | Except.ok r => r
        | Except.error e => "Error executing ".toList ++ functionName ++ ": ".toList ++ e
      Except.ok (result, lastSql', lastPlan')

/-- Truncation of oversized tool results (agent.py lines 519-526). -/
def truncateToolResult (s : List Char) : List Char :=
  if s.length > 50000 then
    s.take 50000 ++ "\n... [truncated ".toList ++ (toString (s.length - 50000)).toList
      ++ " characters]".toList
  else s

/-! ## Response post-processor (agent.py lines 553-767) -/

/-- `_extract_tabular_lines` inner capture loop (agent.py lines 600-615):
blank line stops capture once started; pipe lines and ASCII border lines
(only `-`, `+` and whitespace) are captured; any other line stops capture
once started. -/
def captureTableLines : List (List Char) → List (List Char) → List (List Char)
  | [], acc => acc
  | ln :: rest, acc =>
      if pyStrip ln = [] then
        if acc ≠ [] then acc else captureTableLines rest acc
      else if ln.contains '|' ∨ pyStrip ((pyStrip ln).filter (fun c => !(c == '-') && !(c == '+'))) = [] then
        captureTableLines rest (acc ++ [ln])
      else if acc ≠ [] then acc
      else captureTableLines rest acc

/-- Index of the first line containing a pipe, defaulting to 0
(agent.py lines 595-599). -/
def startIdxPipe (lines : List (List Char)) : Nat :=
  match lines.findIdx? (fun ln => ln.contains '|') with
  | some i => i
  | none => 0

/-- `_extract_tabular_lines` (agent.py lines 592-615). -/
def extractTabularLines (toolText : List Char) : List (List Char) :=
  let lines := (splitOnChar '\n' toolText).map rstripCR
  captureTableLines (lines.drop (startIdxPipe lines)) []

/-- `split_row` (agent.py lines 631-639): strip, split on `|`, drop the
outer empty cells produced by outer pipes, strip each cell. -/
def splitRow (line : List Char) : List (List Char) :=
  let parts := splitOnChar '|' (pyStrip line)
  let parts :=
    if parts.length ≥ 2 ∧ parts.head? = some [] ∧ parts.getLast? = some [] then
      (parts.drop 1).dropLast
    else parts
  parts.map pyStrip

/-- Data rows of the normalized table (agent.py lines 645-659): skip blank,
`-+-` and separator-ish lines and rows with the wrong column count. -/
def tableRows (headers : List (List Char)) (lns : List (List Char)) :
    List (List (List Char)) :=
  lns.filterMap (fun ln =>
    let stripped := pyStrip ln
    if stripped = [] then none
    else if hasSub ("-+-".toList) stripped then none
    else if stripped.all (fun ch => ch == '-' || ch == ':' || ch == '|' || ch == '+' || ch == ' ') then none
    else if ¬ ln.contains '|' then none
    else
      let row := splitRow ln
      if row ≠ [] ∧ row.length = headers.length then some row else none)

/-- Render one markdown row (agent.py lines 662-665). -/
def joinCells (cells : List (List Char)) : List Char :=
  "| ".toList ++ List.intercalate (" | ".toList) cells ++ " |".toList

/-- `_pipe_table_to_markdown` (agent.py lines 617-666). -/
def pipeTableToMarkdown (tableLines : List (List Char)) : List Char :=
  if tableLines = [] then [] else
  let cleaned := tableLines.filter (fun ln => !(isPre ("+".toList) (pyStrip ln)))
  if cleaned = [] then [] else
  match cleaned.find? (fun ln => ln.contains '|') with
  | none => []
  | some headerLine =>
      let headers := splitRow headerLine
      if headers = [] then [] else
      let afterHeader := cleaned.drop (cleaned.indexOf headerLine + 1)
      let rows := tableRows headers afterHeader
      let sepRow := "| ".toList
        ++ List.intercalate (" | ".toList) (headers.map (fun _ => "---".toList)) ++ " |".toList
      List.intercalate ['\n'] ([joinCells headers, sepRow] ++ rows.map joinCells)

/-- Data-row count used to rank query results (agent.py lines 707-711):
lines containing `|` whose stripped text is not made only of `-|+ `. -/
def dataRowCount (content : List Char) : Nat :=
  ((extractTabularLines content).filter (fun ln =>
      ln.contains '|'
        && !((pyStrip ln).all (fun c => c == '-' || c == '|' || c == '+' || c == ' ')))).length

/-- Ids of this run's `duckdb_query` calls (agent.py lines 687-690). -/
def currentQueryIds (toolsUsed : List ToolCallData) : List (List Char) :=
  (toolsUsed.filter (fun t => t.name == qName)).map (fun t => t.id)

/-- Tool outputs of this run's query calls, in history order
(agent.py lines 695-698). -/
def queryCandidates (toolsUsed : List ToolCallData) (history : List Msg) :
    List (List Char) :=
  (history.filter (fun m =>
      m.role == Role.tool && m.toolCallId != []
        && (currentQueryIds toolsUsed).contains m.toolCallId)).map (fun m => m.content)

/-- The `row_count >= max_rows` update (agent.py lines 716-718): ties favor
the later result. -/
def selectBestStep (acc : List Char × Int) (content : List Char) : List Char × Int :=
  if (dataRowCount content : Int) ≥ acc.2 then (content, (dataRowCount content : Int)) else acc

/-- Best query result of the current run: greatest data-row count, ties
favoring the later result; starts from `("", -1)` (agent.py lines 682-718). -/
def selectBestQuery (toolsUsed : List ToolCallData) (history : List Msg) :
    List Char × Int :=
  (queryCandidates toolsUsed history).foldl selectBestStep ([], -1)

/-- Normalization for the already-included-table check (agent.py lines
732-733): remove commas and spaces. -/
def normalizeForCompare (s : List Char) : List Char :=
  s.filter (fun c => !(c == ',') && !(c == ' '))

def chartFenceLit : List Char := "```chart".toList
def chartHdrLit : List Char := "```chart\n".toList
def sqlKeyLit : List Char := "\"sql\":".toList
def sqlFenceLit : List Char := "```sql".toList
def planMarkLit : List Char := "[PLAN:".toList

/-- The first tool message (searching backwards) whose truthy content
parses as chart JSON (agent.py lines 560-570). -/
def findChartJson (chartLike : List Char → Bool) (history : List Msg) : List Char :=
  match history.reverse.find? (fun m =>
      m.role == Role.tool && m.content != [] && chartLike m.content) with
  | some m => m.content
  | none => []

/-- `re.sub(r"```chart\n[\s\S]*?```", f"```chart\n{chart_json}\n```",
result, count=1)` with `re.IGNORECASE` (agent.py lines 586-588): replace
from the first (case-insensitive) `"```chart\n"` through the next
`"```"`; no match leaves the string unchanged. -/
def replaceFirstChartBlock (result chartJson : List Char) : List Char :=
  match findSubIdx chartHdrLit (lowerStr result) with
  | none => result
  | some i =>
      let rest := result.drop (i + chartHdrLit.length)
      match findSubIdx ("```".toList) rest with
      | none => result
      | some j =>
          result.take i ++ chartHdrLit ++ chartJson ++ "\n```".toList
            ++ rest.drop (j + 3)

/-- The chart rewrite for a given chart JSON (agent.py lines 573-588):
prepend a chart block if none is present; otherwise, if the JSON has a
`"sql":` field that the answer lacks, replace the first chart block with
the full JSON. -/
def chartCore (chartJson result : List Char) : List Char :=
  if hasSub chartFenceLit (lowerStr result) then
    if hasSub sqlKeyLit chartJson ∧ hasSub sqlKeyLit result = false then
      replaceFirstChartBlock result chartJson
    else result
  else chartHdrLit ++ chartJson ++ "\n```\n\n".toList ++ result

/-- Chart-block injection (agent.py lines 553-588): applies `chartCore`
when the chart tool was used this run and a chart JSON was found. -/
def chartInjection (P : EngineParams) (toolsUsed : List ToolCallData)
    (history : List Msg) (result : List Char) : List Char :=
  let chartToolUsed := toolsUsed.any (fun t => t.name == cName)
  let chartJson := if chartToolUsed then findChartJson P.chartLike history else []
  if chartToolUsed ∧ chartJson ≠ [] then chartCore chartJson result
  else result

/-- Tabular-result injection (agent.py lines 668-745): when the query tool
was used, pick the best query result, render it as a Markdown table, and
append it unless the (comma/space-normalized) answer already contains it. -/
def tableInjection (toolsUsed : List ToolCallData) (history : List Msg)
    (result : List Char) : List Char :=
  let usedQuery := toolsUsed.any (fun t => t.name == qName)
  if usedQuery then
    let sel := selectBestQuery toolsUsed history
    if sel.1 ≠ [] ∧ sel.2 > 0 then
      let mdTable := pipeTableToMarkdown (extractTabularLines sel.1)
      if mdTable ≠ [] then
        if hasSub (normalizeForCompare mdTable) (normalizeForCompare result) then result
        else result ++ "\n\n".toList ++ mdTable
      else result
    else result
  else result

/-- Insertion of the `[PLAN:...]` marker immediately before the first
fenced SQL block, or at the very start when none is found
(agent.py lines 757-763). -/
def planInsert (lastPlan v : List Char) : List Char :=
  match findSubIdx sqlFenceLit (lowerStr v) with
  | some i =>
      v.take i ++ (planMarkLit ++ lastPlan ++ "]".toList) ++ "\n".toList ++ v.drop i
  | none => (planMarkLit ++ lastPlan ++ "]".toList) ++ "\n".toList ++ v

/-- SQL/plan marker injection (agent.py lines 747-763): when a last SQL
query was captured, prepend a fenced SQL block if none is present, and
insert the `[PLAN:...]` marker immediately before the SQL block (or at the
start) if a plan was captured and no marker is present.  Both presence
checks are made on the incoming answer. -/
def sqlStage (lastSql lastPlan : List Char) (result : List Char) : List Char :=
  if lastSql ≠ [] then
    let hasSqlB := hasSub sqlFenceLit (lowerStr result)
    let hasPlanB := hasSub planMarkLit result
    let result1 :=
      if hasSqlB then result
      else "```sql\n".toList ++ lastSql ++ "\n```\n\n".toList ++ result
    if lastPlan ≠ [] ∧ hasPlanB = false then planInsert lastPlan result1
    else result1
  else result

/-- The full post-processing pass over the final answer, in source order:
chart injection, then tabular-result injection, then SQL/plan injection. -/
def postProcess (P : EngineParams) (toolsUsed : List ToolCallData)
    (history : List Msg) (lastSql lastPlan : List Char) (result : List Char) :
    List Char :=
  sqlStage lastSql lastPlan
    (tableInjection toolsUsed history (chartInjection P toolsUsed history result))

/-! ## `DirectOpenAIAgent.run` (agent.py lines 266-551) -/

/-- Static agent configuration (constructor arguments, agent.py 54-73). -/
structure AgentConfig where
  model : List Char
  systemPrompt : List Char
  maxIterations : Nat
  maxHistoryMessages : Nat

/-- `self.execution_metadata` (agent.py lines 542-551).  The wall-clock
`execution_time_seconds` field is real time and is not modelled. -/
structure Metadata where
  toolsUsed : List ToolCallData
  totalTokens : Nat
  promptTokens : Nat
  completionTokens : Nat
  apiCalls : Nat
  iterations : Nat
  model : List Char
  deriving DecidableEq

/-- The mutable agent state surviving across runs. -/
structure AgentState where
  conversationHistory : List Msg
  cancelled : Bool
  lastSqlQuery : List Char
  lastImplementationPlan : List Char
  executionMetadata : Option Metadata
  deriving DecidableEq

inductive ExitKind where
  | done
  | maxIterationsReached
  | cancelledExit
  | fatalError
  deriving DecidableEq

/-- Per-run accumulators of the function-calling loop. -/
structure LoopCarry where
  history : List Msg
  cancelled : Bool
  lastSql : List Char
  lastPlan : List Char
  apiCalls : Nat
  promptTokens : Nat
  completionTokens : Nat
  toolsUsed : List ToolCallData
  attempts : Nat
  waits : List Nat
  deriving DecidableEq

inductive LoopExit where
  | finished (resultContent : List Char) (iterationsDone : Nat) (c : LoopCarry)
  | exhausted (c : LoopCarry)
  | cancelled (c : LoopCarry)
  | fatal (errMsg : List Char) (c : LoopCarry)
  deriving DecidableEq

/-- Result of executing one iteration's tool calls: either all dispatched
(each appending its tool message), or a raised exception (an arguments
string that `json.loads` rejects) with the state reached so far. -/
inductive ToolExecResult where
  | ok (h : List Msg) (tu : List ToolCallData) (ls lp : List Char)
  | raised (e : List Char) (h : List Msg) (tu : List ToolCallData) (ls lp : List Char)
  deriving DecidableEq

/-- Sequential dispatch of the model's requested tool calls
(agent.py lines 437-533), in order. -/
def execToolCalls (P : EngineParams) :
    List ToolCallData → List Msg → List ToolCallData → List Char → List Char →
      ToolExecResult
  | [], h, tu, ls, lp => ToolExecResult.ok h tu ls lp
  | tc :: rest, h, tu, ls, lp =>
      match dispatchToolCall P ls lp tc.name tc.arguments with
      | Except.error e => ToolExecResult.raised e h tu ls lp
      | Except.ok (res, ls', lp') =>
          execToolCalls P rest (h ++ [toolMsg tc.id (truncateToolResult res)])
            (tu ++ [tc]) ls' lp'

def cancelMsg : List Char := "Operation cancelled by user.".toList
def maxIterMsg : List Char := "Maximum iterations reached without completion.".toList

/-- The `RuntimeError` raised on `APIConnectionError` (agent.py lines
389-394; the configured endpoint detail is abstracted away). -/
def connectionFatalMsg : List Char :=
  "Connection failed to Azure OpenAI endpoint.".toList

/-- The `RuntimeError` raised when the retry budget is exceeded
(agent.py lines 395-398). -/
def rateLimitFatalMsg : List Char :=
  "Rate limit exceeded. Please wait before making more requests.".toList

/-- The function-calling loop (agent.py lines 327-536), structurally
recursing on the remaining iterations.  `iteration` is the 0-based
iteration counter.  The source raises `NameError` when `max_iterations`
is 0 (the loop variables are never bound); this embedding is only used
with at least one permitted iteration. -/
def runLoop (P : EngineParams) (cfg : AgentConfig) (provider : Nat → CallResult) :
    Nat → Nat → LoopCarry → LoopExit
  | 0, _, c => LoopExit.exhausted c
  | Nat.succ rem, iteration, c =>
      if c.cancelled then LoopExit.cancelled { c with cancelled := false }
      else
        let c1 := { c with apiCalls := c.apiCalls + 1,
                           history := trimConversationHistory cfg.maxHistoryMessages c.history }
        match callWithRetry provider c1.attempts with
        | RetryOutcome.connectionFailed a w =>
            LoopExit.fatal connectionFatalMsg
              { c1 with attempts := c1.attempts + a, waits := c1.waits ++ w }
        | RetryOutcome.rateLimitExceeded a w =>
            LoopExit.fatal rateLimitFatalMsg
              { c1 with attempts := c1.attempts + a, waits := c1.waits ++ w }
        | RetryOutcome.ok resp a w =>
            let c2 := { c1 with
              attempts := c1.attempts + a,
              waits := c1.waits ++ w,
              promptTokens := c1.promptTokens + resp.promptTokens,
              completionTokens := c1.completionTokens + resp.completionTokens,
              history := c1.history ++ [mkAssistant resp.content resp.toolCalls] }
            if resp.toolCalls = [] then
              LoopExit.finished resp.content (iteration + 1) c2
            else
              match execToolCalls P resp.toolCalls c2.history c2.toolsUsed c2.lastSql c2.lastPlan with
              | ToolExecResult.raised e h' tu' ls' lp' =>
                  LoopExit.fatal e
                    { c2 with history := h', toolsUsed := tu', lastSql := ls', lastPlan := lp' }
              | ToolExecResult.ok h' tu' ls' lp' =>
                  runLoop P cfg provider rem (iteration + 1)
                    { c2 with history := h', toolsUsed := tu', lastSql := ls', lastPlan := lp' }

/-- Everything `run` exposes: the final answer or the raised exception, the
updated agent state, and the run's accumulated counters. -/
structure RunOutcome where
  result : Except (List Char) (List Char)
  state : AgentState
  exitKind : ExitKind
  apiCalls : Nat
  promptTokens : Nat
  completionTokens : Nat
  toolsUsed : List ToolCallData
  iterationsDone : Nat
  attempts : Nat
  waits : List Nat

/-- The metadata stored at the end of a completed run
(agent.py lines 542-551). -/
def mkMetadata (toolsUsed : List ToolCallData) (pTok cTok apiCalls iterations : Nat)
    (model : List Char) : Metadata :=
  { toolsUsed := toolsUsed, totalTokens := pTok + cTok, promptTokens := pTok,
    completionTokens := cTok, apiCalls := apiCalls, iterations := iterations,
    model := model }

/-- `DirectOpenAIAgent.run` (agent.py lines 266-551): reset (optional),
ensure a system message, append the user message, run the loop, and on the
final-answer and max-iterations exits store fresh metadata and post-process
the answer.  The cancellation check returns its fixed string immediately,
before the metadata store and the post-processor.  A provider fatal error
or an arguments `JSONDecodeError` propagates (`Except.error`). -/
def initialCarry (cfg : AgentConfig) (prompt : List Char) (reset : Bool)
    (st : AgentState) : LoopCarry :=
  let history0 := if reset then [] else st.conversationHistory
  let history1 :=
    if history0 = [] then
      [{ role := Role.system, content := cfg.systemPrompt, toolCalls := [], toolCallId := [] }]
    else history0
  let history2 := history1 ++ [{ role := Role.user, content := prompt, toolCalls := [], toolCallId := [] }]
  { history := history2, cancelled := st.cancelled, lastSql := [], lastPlan := [],
    apiCalls := 0, promptTokens := 0, completionTokens := 0, toolsUsed := [],
    attempts := 0, waits := [] }

def run (P : EngineParams) (cfg : AgentConfig) (provider : Nat → CallResult)
    (prompt : List Char) (reset : Bool) (st : AgentState) : RunOutcome :=
  match runLoop P cfg provider cfg.maxIterations 0 (initialCarry cfg prompt reset st) with
  | LoopExit.cancelled c =>
      { result := Except.ok cancelMsg,
        state := { conversationHistory := c.history, cancelled := false,
                   lastSqlQuery := c.lastSql, lastImplementationPlan := c.lastPlan,
                   executionMetadata := st.executionMetadata },
        exitKind := ExitKind.cancelledExit,
        apiCalls := c.apiCalls, promptTokens := c.promptTokens,
        completionTokens := c.completionTokens, toolsUsed := c.toolsUsed,
        iterationsDone := 0, attempts := c.attempts, waits := c.waits }
  | LoopExit.fatal e c =>
      { result := Except.error e,
        state := { conversationHistory := c.history, cancelled := c.cancelled,
                   lastSqlQuery := c.lastSql, lastImplementationPlan := c.lastPlan,
                   executionMetadata := st.executionMetadata },
        exitKind := ExitKind.fatalError,
        apiCalls := c.apiCalls, promptTokens := c.promptTokens,
        completionTokens := c.completionTokens, toolsUsed := c.toolsUsed,
        iterationsDone := 0, attempts := c.attempts, waits := c.waits }
  | LoopExit.finished content iters c =>
      { result := Except.ok (postProcess P c.toolsUsed c.history c.lastSql c.lastPlan content),
        state := { conversationHistory := c.history, cancelled := c.cancelled,
                   lastSqlQuery := c.lastSql, lastImplementationPlan := c.lastPlan,
                   executionMetadata :=
                     some (mkMetadata c.toolsUsed c.promptTokens c.completionTokens
                       c.apiCalls iters cfg.model) },
        exitKind := ExitKind.done,
        apiCalls := c.apiCalls, promptTokens := c.promptTokens,
        completionTokens := c.completionTokens, toolsUsed := c.toolsUsed,
        iterationsDone := iters, attempts := c.attempts, waits := c.waits }
  | LoopExit.exhausted c =>
      { result := Except.ok (postProcess P c.toolsUsed c.history c.lastSql c.lastPlan maxIterMsg),
        state := { conversationHistory := c.history, cancelled := c.cancelled,
                   lastSqlQuery := c.lastSql, lastImplementationPlan := c.lastPlan,
                   executionMetadata :=
                     some (mkMetadata c.toolsUsed c.promptTokens c.completionTokens
                       c.apiCalls cfg.maxIterations cfg.model) },
        exitKind := ExitKind.maxIterationsReached,
        apiCalls := c.apiCalls, promptTokens := c.promptTokens,
        completionTokens := c.completionTokens, toolsUsed := c.toolsUsed,
        iterationsDone := cfg.maxIterations, attempts := c.attempts, waits := c.waits }

/-! ## Runtime coordinator (src/server/runtime.py) -/

/-- The corrupted-conversation detection of `run_chat_stream`
(runtime.py line 1055): substring tests on the lowercased error text. -/
def isCorruptedConversationError (e : List Char) : Bool :=
  hasSub ("toolcalls".toList) (lowerStr e) || hasSub ("tool_calls".toList) (lowerStr e)
    || hasSub ("invalidrequest".toList) (lowerStr e)

/-- `run_chat` (runtime.py lines 825-920) around the agent run: the agent
run is awaited with no exception handling, so a failure propagates to the
caller.  `agentRun i reset` is the result of the i-th invocation of
`agent.run` in this request with the given reset flag. -/
def runChatAgentResult (agentRun : Nat → Bool → Except (List Char) (List Char))
    (reset : Bool) : Except (List Char) (List Char) :=
  agentRun 0 reset

/-- `run_chat_stream` (runtime.py lines 1049-1066) around the agent run: on
a corrupted-conversation failure the session is reset and the run retried
exactly once with `reset=True`; any other failure re-raises. -/
def runChatStreamAgentResult (agentRun : Nat → Bool → Except (List Char) (List Char))
    (reset : Bool) : Except (List Char) (List Char) :=
  match agentRun 0 reset with
  | Except.ok r => Except.ok r
  | Except.error e =>
      if isCorruptedConversationError e then agentRun 1 true else Except.error e

def contextEndMarker : List Char := "]\n\n".toList
def contextStartLit : List Char := "[Context:".toList

/-- Context-prefix stripping for persisted user messages (runtime.py lines
890-897).  When the literal `"]\n\n"` is absent the code falls back to a
regex that itself requires `"]\n\n"`, so it leaves the content unchanged. -/
def stripContextFromUser (content : List Char) : List Char :=
  match findSubIdx contextEndMarker content with
  | some i => content.drop (i + 3)
  | none => content

/-- Conversion of the agent's conversation history into the messages stored
in the session (runtime.py lines 880-910, identically 1075-1103):
system-role messages are skipped, and the `[Context: ...]` prefix is
stripped from user messages.  Timestamps are wall-clock and not modelled;
`_serialize_tool_calls` keeps dict-shaped tool calls unchanged. -/
def historyToStoredMessages (history : List Msg) : List Msg :=
  history.filterMap (fun m =>
    if m.role == Role.system then none
    else
      let content :=
        if m.role == Role.user && isPre contextStartLit m.content then
          stripContextFromUser m.content
        else m.content
      some { m with content := content })

/-! ## Concrete instances used by scenarios -/

/-- The query-tool result of the tabular-injection scenario. -/
def scenarioTable : List Char := "| id | name |\n| --- | --- |\n| 1 | Pickup |".toList

/-- Concrete engine collaborators: `json.loads` accepts exactly the
arguments string `"ok"` (as an empty object) and rejects everything else
with the `JSONDecodeError` text; the tool handlers succeed; no tool output
parses as chart JSON. -/
def ceParams : EngineParams :=
  { parseArgs := fun s =>
      if s = "ok".toList then Except.ok []
      else Except.error ("Expecting value: line 1 column 1 (char 0)".toList),
    queryTool := fun _ => Except.ok ("r".toList),
    schemaTool := fun _ => Except.ok ("r".toList),
    chartTool := fun _ => Except.ok ("r".toList),
    chartLike := fun _ => false }

def ceCfg : AgentConfig := ⟨"gpt-5".toList, "sys".toList, 3, 20⟩

def freshAgentState : AgentState := ⟨[], false, [], [], none⟩

def cancelledState : AgentState := ⟨[], true, [], [], none⟩

/-- A provider whose one response requests a `duckdb_query` call with an
arguments string that is not valid JSON. -/
def ceProvider1 : Nat → CallResult :=
  fun _ => CallResult.success ⟨[], [⟨"id1".toList, "duckdb_query".toList, "bad".toList⟩], 0, 0⟩

/-- A provider that answers with a tool-call-free assistant message. -/
def ceProvider0 : Nat → CallResult := fun _ => CallResult.success ⟨[], [], 1, 1⟩

/-- Tool trace of the post-processor counterexample: one query call. -/
def c7tu : List ToolCallData := [⟨"q1".toList, "duckdb_query".toList, "ok".toList⟩]

/-- A query result whose second data cell contains a fenced-SQL opener. -/
def c7table : List Char := "| h |\n| x```sql y |".toList

def c7h : List Msg := [toolMsg ("q1".toList) c7table]

def c7r : List Char := "hi".toList

/-- A plain non-system two-message history for the trim counterexample. -/
def mUser : Msg := ⟨Role.user, "u".toList, [], []⟩

/-- An error text matching the corrupted-conversation detection. -/
def corruptedErr : List Char :=
  "Invalid parameter: tool_calls must be followed by tool messages".toList

/-- An agent whose first run fails with a corrupted-conversation error and
whose retry succeeds. -/
def ceAgentRun : Nat → Bool → Except (List Char) (List Char) :=
  fun i _ => if i = 0 then Except.error corruptedErr else Except.ok ("recovered".toList)

/-- Rate-limit error messages: the first suggests a retry-after value, the
later ones do not. -/
def rlMsgs : Nat → List Char :=
  fun i => if i = 0 then "Rate limit reached. Please retry after 7 seconds.".toList
    else "Too many requests".toList

/-- A provider that rate-limits every attempt. -/
def rlProvider : Nat → CallResult := fun i => CallResult.rateLimit (rlMsgs i)

/-- A single unanswered tool call for the sanitize scenario. -/
def tc0 : ToolCallData := ⟨"call_1".toList, "f".toList, []⟩

/-- The running maximum data-row count over a candidate list, starting
from the source's initial `-1`. -/
def maxRowCount (cs : List (List Char)) : Int :=
  cs.foldl (fun m c => max m ((dataRowCount c : Int))) (-1)

/-- The tabular-injection scenario's tool-call list. -/
def c8tu : List ToolCallData := [⟨"q1".toList, qName, []⟩]

/-- The tabular-injection scenario's history. -/
def c8h : List Msg := [toolMsg ("q1".toList) scenarioTable]

/-- The tabular-injection scenario's pipe-free final answer. -/
def c8ans : List Char := "The delivery methods are shown below.".toList

/-! ### Sanitize lemmas -/

theorem foldl_insertPendingId_nodup (tcs : List ToolCallData) :
    ∀ p : List (List Char), p.Nodup → [] ∉ p →
      (tcs.foldl insertPendingId p).Nodup ∧ [] ∉ tcs.foldl insertPendingId p := by
  induction tcs with
  | nil => intro p hn he; exact ⟨hn, he⟩
  | cons tc rest ih =>
      intro p hn he
      rw [List.foldl_cons]
      refine ih _ ?_ ?_
      · unfold insertPendingId
        by_cases hins : tc.id ≠ [] ∧ tc.id ∉ p
        · rw [if_pos hins]
          rw [List.nodup_append]
          refine ⟨hn, List.nodup_singleton _, ?_⟩
          intro a ha hb
          simp at hb
          exact hins.2 (hb ▸ ha)
        · rw [if_neg hins]; exact hn
      · unfold insertPendingId
        by_cases hins : tc.id ≠ [] ∧ tc.id ∉ p
        · rw [if_pos hins]
          intro hmem
          rcases List.mem_append.mp hmem with h1 | h2
          · exact he h1
          · simp at h2
            exact hins.1 h2
        · rw [if_neg hins]; exact he

theorem mem_foldl_insertPendingId {tcs : List ToolCallData} :
    ∀ {p : List (List Char)} {x : List Char}, x ∈ tcs.foldl insertPendingId p →
      x ∈ p ∨ ∃ tc ∈ tcs, x = tc.id := by
  induction tcs with
  | nil => intro p x hx; exact Or.inl hx
  | cons tc rest ih =>
      intro p x hx
      rw [List.foldl_cons] at hx
      rcases ih hx with h1 | h2
      · unfold insertPendingId at h1
        by_cases hins : tc.id ≠ [] ∧ tc.id ∉ p
        · rw [if_pos hins] at h1
          rcases List.mem_append.mp h1 with ha | hb
          · exact Or.inl ha
          · simp at hb
            exact Or.inr ⟨tc, List.mem_cons_self .., hb⟩
        · rw [if_neg hins] at h1
          exact Or.inl h1
      · rcases h2 with ⟨tc', htc', hxeq⟩
        exact Or.inr ⟨tc', List.mem_cons_of_mem _ htc', hxeq⟩

theorem updatePending_nodup {p : List (List Char)} (m : Msg)
    (hn : p.Nodup) (he : [] ∉ p) :
    (updatePending p m).Nodup ∧ [] ∉ updatePending p m := by
  obtain ⟨r, cnt, tcs, tid⟩ := m
  cases r with
  | assistant =>
      have hup : updatePending p ⟨Role.assistant, cnt, tcs, tid⟩ =
          if tcs ≠ [] then tcs.foldl insertPendingId p else p := rfl
      rw [hup]
      by_cases htc : tcs ≠ []
      · rw [if_pos htc]
        exact foldl_insertPendingId_nodup tcs p hn he
      · rw [if_neg htc]
        exact ⟨hn, he⟩
  | tool =>
      refine ⟨hn.filter _, ?_⟩
      intro hmem
      exact he (List.mem_of_mem_filter hmem)
  | system => exact ⟨hn, he⟩
  | user => exact ⟨hn, he⟩

theorem mem_updatePending {p : List (List Char)} {m : Msg} {x : List Char}
    (hx : x ∈ updatePending p m) :
    x ∈ p ∨ ∃ tc ∈ m.toolCalls, x = tc.id := by
  obtain ⟨r, cnt, tcs, tid⟩ := m
  cases r with
  | assistant =>
      show x ∈ p ∨ ∃ tc ∈ tcs, x = tc.id
      have hx' : x ∈ (if tcs ≠ [] then tcs.foldl insertPendingId p else p) := hx
      by_cases htc : tcs ≠ []
      · rw [if_pos htc] at hx'
        exact mem_foldl_insertPendingId hx'
      · rw [if_neg htc] at hx'
        exact Or.inl hx'
  | tool => exact Or.inl (List.mem_of_mem_filter hx)
  | system => exact Or.inl hx
  | user => exact Or.inl hx

/-- Walking the block of synthesized tool messages for `p` consumes exactly
the pending ids `p`. -/
theorem checkNoOrphans_synthBlock (p : List (List Char)) (l : List Msg) :
    p.Nodup → checkNoOrphans p (p.map synthToolMsg ++ l) = checkNoOrphans [] l := by
  induction p with
  | nil => intro _; rfl
  | cons i p' ih =>
      intro hn
      simp only [List.map_cons, List.cons_append]
      rw [checkNoOrphans]
      have hrole : (synthToolMsg i).role = Role.tool := rfl
      have hcond : ¬((i :: p' ≠ []) ∧ (synthToolMsg i).role ≠ Role.tool) := by
        simp [hrole]
      rw [if_neg hcond]
      have hupd : updatePending (i :: p') (synthToolMsg i) = p' := by
        have hnotin : i ∉ p' := (List.nodup_cons.mp hn).1
        show (i :: p').filter (fun x => decide (x ≠ i)) = p'
        rw [List.filter_cons]
        have h1 : (decide (i ≠ i) : Bool) = false := by simp
        rw [h1]
        simp only [Bool.false_eq_true, if_false]
        apply List.filter_eq_self.mpr
        intro a ha
        simp only [decide_eq_true_eq]
        exact fun h => hnotin (h ▸ ha)
      rw [hupd]
      exact ih (List.nodup_cons.mp hn).2

/-- Master lemma: the output of the sanitize walk has no orphan tool
calls. -/
theorem checkNoOrphans_sanitizeAux (l : List Msg) :
    ∀ p : List (List Char), p.Nodup → [] ∉ p →
      checkNoOrphans p (sanitizeAux p l) = true := by
  induction l with
  | nil =>
      intro p hn he
      show checkNoOrphans p (p.map synthToolMsg) = true
      have := checkNoOrphans_synthBlock p ([] : List Msg) hn
      rw [List.append_nil] at this
      rw [this]
      rfl
  | cons m rest ih =>
      intro p hn he
      by_cases hc : p ≠ [] ∧ m.role ≠ Role.tool
      · rw [sanitizeAux, if_pos hc]
        rw [checkNoOrphans_synthBlock p _ hn]
        rw [checkNoOrphans]
        have hcond : ¬(([] : List (List Char)) ≠ [] ∧ m.role ≠ Role.tool) := by simp
        rw [if_neg hcond]
        have hinv := updatePending_nodup (p := []) m List.nodup_nil (by simp)
        exact ih _ hinv.1 hinv.2
      · rw [sanitizeAux, if_neg hc]
        rw [checkNoOrphans, if_neg hc]
        have hinv := updatePending_nodup (p := p) m hn he
        exact ih _ hinv.1 hinv.2

/-- If the walk over `l` starting from `p` makes no insertion, then
sanitizing `l ++ l₂` from `p` keeps `l` unchanged and continues on `l₂`
with an empty pending set. -/
theorem sanitizeAux_append_of_noOrphans {l : List Msg} :
    ∀ {p : List (List Char)}, checkNoOrphans p l = true →
      ∀ l₂, sanitizeAux p (l ++ l₂) = l ++ sanitizeAux [] l₂ := by
  induction l with
  | nil =>
      intro p hp l₂
      have : p = [] := by
        have : p.isEmpty = true := hp
        exact List.isEmpty_iff.mp this
      subst this
      simp
  | cons m rest ih =>
      intro p hp l₂
      rw [checkNoOrphans] at hp
      by_cases hc : p ≠ [] ∧ m.role ≠ Role.tool
      · rw [if_pos hc] at hp
        exact absurd hp (by simp)
      · rw [if_neg hc] at hp
        rw [List.cons_append, sanitizeAux, if_neg hc]
        rw [ih hp l₂]
        rfl

/-- A list with no orphans is a fixed point of the sanitize walk. -/
theorem sanitizeAux_eq_self_of_noOrphans {l : List Msg} {p : List (List Char)}
    (hp : checkNoOrphans p l = true) : sanitizeAux p l = l := by
  have h := sanitizeAux_append_of_noOrphans hp []
  rw [List.append_nil] at h
  rw [h]
  rw [show sanitizeAux ([] : List (List Char)) [] = [] from rfl, List.append_nil]

/-- The original history is a sublist of its sanitization (sanitize only
inserts messages). -/
theorem sublist_sanitizeAux (l : List Msg) :
    ∀ p : List (List Char), l.Sublist (sanitizeAux p l) := by
  induction l with
  | nil => intro p; exact List.nil_sublist _
  | cons m rest ih =>
      intro p
      by_cases hc : p ≠ [] ∧ m.role ≠ Role.tool
      · rw [sanitizeAux, if_pos hc]
        have h1 : (m :: rest).Sublist (m :: sanitizeAux (updatePending [] m) rest) :=
          (ih _).cons₂ m
        exact h1.trans (List.sublist_append_right _ _)
      · rw [sanitizeAux, if_neg hc]
        exact (ih _).cons₂ m

/-- Every message of the sanitized history is an original message or a
synthesized interrupted-tool-call message. -/
theorem mem_sanitizeAux {l : List Msg} :
    ∀ {p : List (List Char)} {x : Msg}, x ∈ sanitizeAux p l →
      x ∈ l ∨ ∃ i, x = synthToolMsg i := by
  induction l with
  | nil =>
      intro p x hx
      rcases List.mem_map.mp hx with ⟨i, _, hix⟩
      exact Or.inr ⟨i, hix.symm⟩
  | cons m rest ih =>
      intro p x hx
      by_cases hc : p ≠ [] ∧ m.role ≠ Role.tool
      · rw [sanitizeAux, if_pos hc] at hx
        rcases List.mem_append.mp hx with h1 | h2
        · rcases List.mem_map.mp h1 with ⟨i, _, hix⟩
          exact Or.inr ⟨i, hix.symm⟩
        · rcases List.mem_cons.mp h2 with h3 | h4
          · exact Or.inl (h3 ▸ List.mem_cons_self ..)
          · rcases ih h4 with h5 | h6
            · exact Or.inl (List.mem_cons_of_mem _ h5)
            · exact Or.inr h6
      · rw [sanitizeAux, if_neg hc] at hx
        rcases List.mem_cons.mp hx with h3 | h4
        · exact Or.inl (h3 ▸ List.mem_cons_self ..)
        · rcases ih h4 with h5 | h6
          · exact Or.inl (List.mem_cons_of_mem _ h5)
          · exact Or.inr h6

/-- When the walk from `p` over `l` meets an orphan (some id unanswered
before the next non-tool message or before end-of-list), sanitize inserts
at least one message: the output is strictly longer. -/
theorem sanitizeAux_length_lt {l : List Msg} :
    ∀ {p : List (List Char)}, checkNoOrphans p l = false →
      l.length < (sanitizeAux p l).length := by
  induction l with
  | nil =>
      intro p hp
      have hp' : p.isEmpty = false := hp
      have hpne : p ≠ [] := by
        intro hnil
        rw [hnil] at hp'
        exact absurd hp' (by decide)
      show 0 < (p.map synthToolMsg).length
      rw [List.length_map]
      exact List.length_pos.mpr hpne
  | cons m rest ih =>
      intro p hp
      rw [checkNoOrphans] at hp
      by_cases hc : p ≠ [] ∧ m.role ≠ Role.tool
      · rw [sanitizeAux, if_pos hc]
        rw [List.length_append, List.length_map]
        have h1 : rest.length ≤ (sanitizeAux (updatePending [] m) rest).length :=
          (sublist_sanitizeAux rest _).length_le
        have h2 : 0 < p.length := List.length_pos.mpr hc.1
        simp only [List.length_cons]
        omega
      · rw [if_neg hc] at hp
        rw [sanitizeAux, if_neg hc]
        have h1 := ih hp
        simp only [List.length_cons]
        omega

theorem isPre_iff (p : List Char) : ∀ l, isPre p l = true ↔ ∃ t, l = p ++ t := by
  induction p with
  | nil =>
      intro l
      simp [isPre]
  | cons a as ih =>
      intro l
      cases l with
      | nil =>
          constructor
          · intro h; exact absurd h (by simp [isPre])
          · rintro ⟨t, ht⟩; exact absurd ht (by simp)
      | cons b bs =>
          rw [show isPre (a :: as) (b :: bs) = (a == b && isPre as bs) from rfl]
          rw [Bool.and_eq_true, beq_iff_eq, ih bs]
          constructor
          · rintro ⟨rfl, t, rfl⟩; exact ⟨t, rfl⟩
          · rintro ⟨t, ht⟩
            rw [List.cons_append] at ht
            injection ht with h1 h2
            exact ⟨h1.symm, t, h2⟩

theorem isPre_append_self (p t : List Char) : isPre p (p ++ t) = true :=
  (isPre_iff p _).mpr ⟨t, rfl⟩

theorem isPre_refl (p : List Char) : isPre p p = true := by
  have := isPre_append_self p []
  rwa [List.append_nil] at this

theorem isPre_of_isPre_append {p m : List Char} (x : List Char)
    (h : isPre p m = true) : isPre p (m ++ x) = true := by
  rcases (isPre_iff p m).mp h with ⟨t, rfl⟩
  rw [List.append_assoc]
  exact isPre_append_self p _

theorem hasSub_iff (p : List Char) :
    ∀ l, hasSub p l = true ↔ ∃ u v, l = u ++ p ++ v := by
  intro l
  induction l with
  | nil =>
      rw [show hasSub p [] = p.isEmpty from rfl]
      constructor
      · intro h
        have : p = [] := List.isEmpty_iff.mp h
        exact ⟨[], [], by simp [this]⟩
      · rintro ⟨u, v, huv⟩
        have h1 : u = [] ∧ p ++ v = [] := by
          have := huv.symm
          rw [List.append_assoc] at this
          exact List.append_eq_nil.mp this
        have h2 := List.append_eq_nil.mp h1.2
        simp [h2.1]
  | cons c cs ih =>
      rw [show hasSub p (c :: cs) = (isPre p (c :: cs) || hasSub p cs) from rfl]
      rw [Bool.or_eq_true, isPre_iff, ih]
      constructor
      · rintro (⟨t, ht⟩ | ⟨u, v, huv⟩)
        · exact ⟨[], t, by simp [ht]⟩
        · exact ⟨c :: u, v, by simp [huv]⟩
      · rintro ⟨u, v, huv⟩
        cases u with
        | nil =>
            left
            exact ⟨v, by simpa using huv⟩
        | cons x u' =>
            right
            have hcc : c :: cs = x :: (u' ++ p ++ v) := by simpa using huv
            exact ⟨u', v, ((List.cons.injEq c cs x _).mp hcc).2⟩

theorem hasSub_of_isPre {p l : List Char} (h : isPre p l = true) :
    hasSub p l = true := by
  rcases (isPre_iff p l).mp h with ⟨t, rfl⟩
  exact (hasSub_iff p _).mpr ⟨[], t, by simp⟩

theorem hasSub_append_right {p v : List Char} (u : List Char)
    (h : hasSub p v = true) : hasSub p (u ++ v) = true := by
  rcases (hasSub_iff p v).mp h with ⟨a, b, rfl⟩
  exact (hasSub_iff p _).mpr ⟨u ++ a, b, by simp⟩

theorem hasSub_append_left {p u : List Char} (v : List Char)
    (h : hasSub p u = true) : hasSub p (u ++ v) = true := by
  rcases (hasSub_iff p u).mp h with ⟨a, b, rfl⟩
  exact (hasSub_iff p _).mpr ⟨a, b ++ v, by simp⟩

theorem hasSub_self_append (p v : List Char) : hasSub p (p ++ v) = true :=
  hasSub_of_isPre (isPre_append_self p v)

theorem hasSub_append_self (u p : List Char) : hasSub p (u ++ p) = true :=
  hasSub_append_right u (hasSub_of_isPre (isPre_refl p))

theorem hasSub_refl (p : List Char) : hasSub p p = true :=
  hasSub_of_isPre (isPre_refl p)

theorem hasSub_trans {p m l : List Char} (h1 : hasSub p m = true)
    (h2 : hasSub m l = true) : hasSub p l = true := by
  rcases (hasSub_iff m l).mp h2 with ⟨u, v, rfl⟩
  rcases (hasSub_iff p m).mp h1 with ⟨a, b, hm⟩
  refine (hasSub_iff p _).mpr ⟨u ++ a, b ++ v, ?_⟩
  rw [hm]
  simp

theorem mem_of_hasSub {p l : List Char} {a : Char} (h : hasSub p l = true)
    (ha : a ∈ p) : a ∈ l := by
  rcases (hasSub_iff p l).mp h with ⟨u, v, rfl⟩
  exact List.mem_append.mpr (Or.inl (List.mem_append.mpr (Or.inr ha)))

theorem findSubIdx_isSome (p : List Char) :
    ∀ l, (findSubIdx p l).isSome = hasSub p l := by
  intro l
  induction l with
  | nil =>
      rw [show findSubIdx p [] = if p.isEmpty then some 0 else none from rfl]
      by_cases h : p.isEmpty
      · rw [if_pos h]
        show true = hasSub p []
        rw [show hasSub p [] = p.isEmpty from rfl, h]
      · rw [if_neg h]
        show false = hasSub p []
        rw [show hasSub p [] = p.isEmpty from rfl]
        exact (Bool.not_eq_true _ ▸ h : p.isEmpty = false).symm
  | cons c cs ih =>
      rw [show findSubIdx p (c :: cs) =
        (if isPre p (c :: cs) then some 0 else (findSubIdx p cs).map (· + 1)) from rfl]
      rw [show hasSub p (c :: cs) = (isPre p (c :: cs) || hasSub p cs) from rfl]
      by_cases h : isPre p (c :: cs) = true
      · rw [if_pos h, h]
        rfl
      · rw [if_neg h]
        have hfalse : isPre p (c :: cs) = false := by
          cases hh : isPre p (c :: cs) with
          | false => rfl
          | true => exact absurd hh h
        rw [hfalse, Bool.false_or]
        cases hfind : findSubIdx p cs with
        | none =>
            rw [hfind] at ih
            exact ih
        | some j =>
            rw [hfind] at ih
            exact ih

theorem findSubIdx_some_isPre {p : List Char} :
    ∀ {l : List Char} {i : Nat}, findSubIdx p l = some i →
      isPre p (l.drop i) = true := by
  intro l
  induction l with
  | nil =>
      intro i h
      rw [show findSubIdx p [] = if p.isEmpty then some 0 else none from rfl] at h
      by_cases hp : p.isEmpty
      · rw [if_pos hp] at h
        injection h with h1
        subst h1
        have : p = [] := List.isEmpty_iff.mp hp
        rw [this]
        rfl
      · rw [if_neg hp] at h
        exact absurd h (by simp)
  | cons c cs ih =>
      intro i h
      rw [show findSubIdx p (c :: cs) =
        (if isPre p (c :: cs) then some 0 else (findSubIdx p cs).map (· + 1)) from rfl] at h
      by_cases hp : isPre p (c :: cs) = true
      · rw [if_pos hp] at h
        injection h with h1
        subst h1
        exact hp
      · rw [if_neg hp] at h
        rcases Option.map_eq_some'.mp h with ⟨j, hj, hji⟩
        subst hji
        rw [List.drop_succ_cons]
        exact ih hj

theorem lowerStr_append (a b : List Char) :
    lowerStr (a ++ b) = lowerStr a ++ lowerStr b := List.map_append _ a b

theorem lowerStr_drop (l : List Char) (n : Nat) :
    (lowerStr l).drop n = lowerStr (l.drop n) := (List.map_drop ..).symm

theorem lowerStr_take (l : List Char) (n : Nat) :
    (lowerStr l).take n = lowerStr (l.take n) := (List.map_take ..).symm

/-! ## Trim lemmas and claim C2 -/

theorem pyTail_of_le {l : List Msg} {k : Nat} (hl : l.length ≤ k) (hk : 1 ≤ k) :
    pyTail k l = l := by
  unfold pyTail
  rw [if_neg (by omega : ¬ k = 0)]
  rw [Nat.sub_eq_zero_of_le hl, List.drop_zero]

theorem pyTail_length_le (l : List Msg) {k : Nat} (hk : 1 ≤ k) :
    (pyTail k l).length ≤ k := by
  unfold pyTail
  rw [if_neg (by omega : ¬ k = 0)]
  rw [List.length_drop]
  omega

theorem mem_of_mem_pyTail {l : List Msg} {k : Nat} {a : Msg}
    (ha : a ∈ pyTail k l) : a ∈ l := by
  unfold pyTail at ha
  by_cases hk : k = 0
  · rwa [if_pos hk] at ha
  · rw [if_neg hk] at ha
    exact List.mem_of_mem_drop ha

theorem beq_system_false {m : Msg} (h : (m.role != Role.system) = true) :
    (m.role == Role.system) = false := by
  rw [bne_iff_ne] at h
  exact beq_eq_false_iff_ne.mpr h

theorem bne_system_true {m : Msg} (h : (m.role == Role.system) = true) :
    (m.role != Role.system) = false := by
  rw [beq_iff_eq] at h
  simp [bne_iff_ne, h]

/-- When the history exceeds `maxHistoryMessages + 1` messages, trim yields
the system messages followed by the `maxHistoryMessages` most recent
others. -/
theorem trim_eq_of_gt {k : Nat} {h : List Msg} (hk : 1 ≤ k)
    (hle : ¬ h.length ≤ k + 1) :
    trimConversationHistory k h
      = h.filter (fun m => m.role == Role.system)
        ++ pyTail k (h.filter (fun m => m.role != Role.system)) := by
  unfold trimConversationHistory
  rw [if_neg hle]
  show h.filter (fun m => m.role == Role.system)
      ++ (if (h.filter (fun m => m.role != Role.system)).length > k then
            pyTail k (h.filter (fun m => m.role != Role.system))
          else h.filter (fun m => m.role != Role.system)) = _
  by_cases hlen : (h.filter (fun m => m.role != Role.system)).length > k
  · rw [if_pos hlen]
  · rw [if_neg hlen]
    rw [pyTail_of_le (by omega) hk]

/-- Claim C2 (amended): trim preserves all system messages in their
original relative order; when the history has more than `recent_keep + 1`
messages it becomes the system prefix followed by the most recent
`recent_keep` non-system messages, with at most `recent_keep` non-system
messages remaining; when the history is within `recent_keep + 1` messages
trim leaves it unchanged, so up to `recent_keep + 1` non-system messages
may remain. -/
theorem c2_theorem (k : Nat) (h : List Msg) (hk : 1 ≤ k) :
    ((trimConversationHistory k h).filter (fun m => m.role == Role.system)
        = h.filter (fun m => m.role == Role.system))
    ∧ (h.length ≤ k + 1 → trimConversationHistory k h = h)
    ∧ (¬ h.length ≤ k + 1 →
        trimConversationHistory k h
          = h.filter (fun m => m.role == Role.system)
            ++ pyTail k (h.filter (fun m => m.role != Role.system))
        ∧ ((trimConversationHistory k h).filter (fun m => m.role != Role.system)).length ≤ k)
    ∧ ((trimConversationHistory k h).filter (fun m => m.role != Role.system)).length ≤ k + 1 := by
  by_cases hle : h.length ≤ k + 1
  · have heq : trimConversationHistory k h = h := by
      unfold trimConversationHistory
      rw [if_pos hle]
    refine ⟨by rw [heq], fun _ => heq, fun hcon => absurd hle hcon, ?_⟩
    rw [heq]
    calc (h.filter (fun m => m.role != Role.system)).length
        ≤ h.length := List.length_filter_le _ h
      _ ≤ k + 1 := hle
  · have key := trim_eq_of_gt hk hle
    have hsysfilter : (h.filter (fun m => m.role == Role.system)).filter
        (fun m => m.role == Role.system) = h.filter (fun m => m.role == Role.system) :=
      List.filter_eq_self.mpr (fun a ha => (List.mem_filter.mp ha).2)
    have hothernone : (pyTail k (h.filter (fun m => m.role != Role.system))).filter
        (fun m => m.role == Role.system) = [] := by
      rw [List.filter_eq_nil_iff]
      intro a ha
      have hmem := mem_of_mem_pyTail ha
      have := (List.mem_filter.mp hmem).2
      simp [beq_system_false this]
    have hsysnone : (h.filter (fun m => m.role == Role.system)).filter
        (fun m => m.role != Role.system) = [] := by
      rw [List.filter_eq_nil_iff]
      intro a ha
      have := (List.mem_filter.mp ha).2
      simp [bne_system_true this]
    have hotherall : (pyTail k (h.filter (fun m => m.role != Role.system))).filter
        (fun m => m.role != Role.system)
        = pyTail k (h.filter (fun m => m.role != Role.system)) := by
      apply List.filter_eq_self.mpr
      intro a ha
      exact (List.mem_filter.mp (mem_of_mem_pyTail ha)).2
    have hbound : ((trimConversationHistory k h).filter
        (fun m => m.role != Role.system)).length ≤ k := by
      rw [key, List.filter_append, hsysnone, hotherall, List.nil_append]
      exact pyTail_length_le _ hk
    refine ⟨?_, fun hcon => absurd hcon hle, fun _ => ⟨key, hbound⟩, le_trans hbound (by omega)⟩
    rw [key, List.filter_append, hsysfilter, hothernone, List.append_nil]

/-- Claim C2 counterexample: with `recent_keep = 1` and a two-user-message
history (no system message), trim leaves 2 non-system messages, exceeding
the claimed bound, and the result is not the system prefix followed by the
most recent 1 non-system message. -/
theorem c2_counterexample :
    ¬ (((trimConversationHistory 1 [mUser, mUser]).filter
        (fun m => m.role != Role.system)).length ≤ 1) := by decide

/-- Claim C2 witness. -/
theorem c2_witness :
    trimConversationHistory 2 [⟨Role.system, [], [], []⟩, mUser, mUser, mUser, mUser]
      = ([⟨Role.system, [], [], []⟩, mUser, mUser, mUser, mUser] : List Msg).filter
          (fun m => m.role == Role.system)
        ++ pyTail 2 (([⟨Role.system, [], [], []⟩, mUser, mUser, mUser, mUser] : List Msg).filter
          (fun m => m.role != Role.system)) :=
  ((c2_theorem 2 [⟨Role.system, [], [], []⟩, mUser, mUser, mUser, mUser]
    (by decide)).2.2.1 (by decide)).1

/-! ## Claims C3, C4 and C10 (sanitize) -/

/-- Claim C3: for every message list, sanitize only inserts messages (the
original history is a sublist of the output); every inserted message is a
synthesized tool message `synthToolMsg i` — role `tool`, `tool_call_id` the
closed id `i`, and the fixed interrupted-call content; the output has no
orphan tool calls (every assistant tool-call id is answered before the
next non-tool message and before end-of-list); sanitize is the identity
exactly on the orphan-free lists, so an insertion happens precisely when
some id is left open; at any point of the walk where ids `p` are open and
a non-tool message is met, and likewise at end-of-list, sanitize inserts
exactly one synthesized tool message per open id (the block
`p.map synthToolMsg`, in insertion order); and appending to an orphan-free
history an assistant message with one unclosed (truthy) tool-call id makes
sanitize append exactly one synthesized tool message closing that id at
the end. -/
theorem c3_theorem (h : List Msg) (content : List Char) (tc : ToolCallData)
    (hid : tc.id ≠ []) :
    h.Sublist (sanitizeHistory h)
    ∧ (∀ m ∈ sanitizeHistory h, m ∈ h ∨ ∃ i, m = synthToolMsg i)
    ∧ (∀ i, (synthToolMsg i).role = Role.tool ∧ (synthToolMsg i).toolCallId = i
        ∧ (synthToolMsg i).content = interruptedContent)
    ∧ checkNoOrphans [] (sanitizeHistory h) = true
    ∧ (sanitizeHistory h = h ↔ checkNoOrphans [] h = true)
    ∧ (∀ (p : List (List Char)) (m : Msg) (rest : List Msg),
        p ≠ [] → m.role ≠ Role.tool →
        sanitizeAux p (m :: rest)
          = p.map synthToolMsg ++ m :: sanitizeAux (updatePending [] m) rest)
    ∧ (∀ p : List (List Char), sanitizeAux p [] = p.map synthToolMsg)
    ∧ (checkNoOrphans [] h = true →
        sanitizeHistory (h ++ [mkAssistant content [tc]])
          = h ++ [mkAssistant content [tc], synthToolMsg tc.id]) := by
  refine ⟨sublist_sanitizeAux h [], fun m hm => mem_sanitizeAux hm,
    fun i => ⟨rfl, rfl, rfl⟩,
    checkNoOrphans_sanitizeAux h [] List.nodup_nil (by simp), ?_, ?_, ?_, ?_⟩
  · constructor
    · intro he
      by_contra hfalse
      have hf : checkNoOrphans [] h = false := by
        cases hx : checkNoOrphans [] h
        · rfl
        · exact absurd hx hfalse
      have hlt := sanitizeAux_length_lt hf
      rw [show sanitizeHistory h = sanitizeAux [] h from rfl] at he
      rw [he] at hlt
      exact absurd hlt (lt_irrefl _)
    · intro ht
      exact sanitizeAux_eq_self_of_noOrphans ht
  · intro p m rest hp hm
    rw [sanitizeAux, if_pos ⟨hp, hm⟩]
  · intro p
    rw [sanitizeAux]
  · intro hwf
    show sanitizeAux [] (h ++ [mkAssistant content [tc]]) = _
    rw [sanitizeAux_append_of_noOrphans hwf]
    congr 1
    rw [sanitizeAux]
    rw [if_neg (by simp)]
    have hup : updatePending [] (mkAssistant content [tc]) = [tc.id] := by
      show (if [tc] ≠ [] then [tc].foldl insertPendingId [] else []) = [tc.id]
      rw [if_pos (by simp)]
      show insertPendingId [] tc = [tc.id]
      unfold insertPendingId
      rw [if_pos ⟨hid, by simp⟩]
      rfl
    rw [hup]
    rfl

/-- Claim C3 witness. -/
theorem c3_witness :
    sanitizeHistory ([] ++ [mkAssistant [] [tc0]])
      = [] ++ [mkAssistant [] [tc0], synthToolMsg tc0.id] :=
  (c3_theorem [] [] tc0 (by decide)).2.2.2.2.2.2.2 (by decide)

/-- Claim C4: `_sanitize_history` is idempotent — applying it twice yields
the same message list as applying it once. -/
theorem c4_theorem (h : List Msg) :
    sanitizeHistory (sanitizeHistory h) = sanitizeHistory h :=
  sanitizeAux_eq_self_of_noOrphans
    (checkNoOrphans_sanitizeAux h [] List.nodup_nil (by simp))

/-- Claim C10: the history-to-session conversion used by both `run_chat`
and `run_chat_stream` skips every system-role message, so the persisted
message list contains no system message; and sanitizing a stored session
without system messages (as done when restoring it into the agent) yields
a history without system messages, since sanitize only adds tool
messages. -/
theorem c10_theorem (h : List Msg) (stored : List Msg)
    (hs : ∀ m ∈ stored, m.role ≠ Role.system) :
    (∀ m ∈ historyToStoredMessages h, m.role ≠ Role.system)
    ∧ (∀ m ∈ sanitizeHistory stored, m.role ≠ Role.system) := by
  constructor
  · intro m hm
    rcases List.mem_filterMap.mp hm with ⟨m₀, hm₀, hmap⟩
    by_cases hr : (m₀.role == Role.system) = true
    · rw [if_pos hr] at hmap
      exact absurd hmap (by simp)
    · rw [if_neg hr] at hmap
      injection hmap with hmeq
      intro hcon
      apply hr
      rw [beq_iff_eq]
      rw [← hmeq] at hcon
      exact hcon
  · intro m hm
    rcases mem_sanitizeAux hm with h1 | ⟨i, rfl⟩
    · exact hs m h1
    · intro hcon
      exact absurd hcon (by simp [synthToolMsg, toolMsg])

/-- Claim C10 witness. -/
theorem c10_witness : (Msg.mk Role.user ("hi".toList) [] []).role ≠ Role.system :=
  (c10_theorem [⟨Role.system, "s".toList, [], []⟩, ⟨Role.user, "hi".toList, [], []⟩]
    [] (by simp)).1 (Msg.mk Role.user ("hi".toList) [] []) (by decide)

/-! ## Claim C6 (rate-limit retry) -/

theorem callWithRetry_rateLimit_all (provider : Nat → CallResult)
    (msgs : Nat → List Char) (hp : ∀ i, provider i = CallResult.rateLimit (msgs i))
    (base : Nat) :
    callWithRetry provider base
      = RetryOutcome.rateLimitExceeded 4
          [computeWait (msgs base) 1, computeWait (msgs (base + 1)) 2,
           computeWait (msgs (base + 2)) 3] := by
  simp [callWithRetry, retryLoop, hp]

theorem runLoop_rateLimit_all (P : EngineParams) (cfg : AgentConfig)
    (provider : Nat → CallResult) (msgs : Nat → List Char)
    (hp : ∀ i, provider i = CallResult.rateLimit (msgs i)) (n : Nat)
    (c : LoopCarry) (hc : c.cancelled = false) :
    runLoop P cfg provider (n + 1) 0 c
      = LoopExit.fatal rateLimitFatalMsg
          { c with
            apiCalls := c.apiCalls + 1,
            history := trimConversationHistory cfg.maxHistoryMessages c.history,
            attempts := c.attempts + 4,
            waits := c.waits ++ [computeWait (msgs c.attempts) 1,
                                 computeWait (msgs (c.attempts + 1)) 2,
                                 computeWait (msgs (c.attempts + 2)) 3] } := by
  rw [runLoop]
  rw [if_neg (by rw [hc]; exact Bool.false_ne_true)]
  simp only [callWithRetry_rateLimit_all provider msgs hp]

/-- Claim C6: with a provider that rate-limits every submission attempt,
the retry loop makes exactly 4 attempts (1 initial + 3 retries) and then
the run surfaces the fatal rate-limit error within its first loop
iteration; before retry k the wait is the provider-suggested retry-after
value plus 5 seconds when the error message states one, and `20 * k`
seconds otherwise (`computeWait`). -/
theorem c6_theorem (provider : Nat → CallResult) (msgs : Nat → List Char)
    (hp : ∀ i, provider i = CallResult.rateLimit (msgs i)) :
    (callWithRetry provider 0
      = RetryOutcome.rateLimitExceeded 4
          [computeWait (msgs 0) 1, computeWait (msgs 1) 2, computeWait (msgs 2) 3])
    ∧ (∀ (n : Nat) (m : List Char), parseRetryAfter m = some n → computeWait m 1 = n + 5)
    ∧ (∀ (k : Nat) (m : List Char), parseRetryAfter m = none → computeWait m k = 20 * k)
    ∧ ∀ (P : EngineParams) (cfg : AgentConfig) (prompt : List Char) (reset : Bool)
        (st : AgentState), st.cancelled = false → 0 < cfg.maxIterations →
        (run P cfg provider prompt reset st).result = Except.error rateLimitFatalMsg
        ∧ (run P cfg provider prompt reset st).attempts = 4
        ∧ (run P cfg provider prompt reset st).waits
            = [computeWait (msgs 0) 1, computeWait (msgs 1) 2, computeWait (msgs 2) 3] := by
  refine ⟨by simpa using callWithRetry_rateLimit_all provider msgs hp 0,
    ?_, ?_, ?_⟩
  · intro n m hm
    unfold computeWait
    rw [hm]
  · intro k m hm
    unfold computeWait
    rw [hm]
  · intro P cfg prompt reset st hc hmax
    obtain ⟨n, hn⟩ : ∃ n, cfg.maxIterations = n + 1 := ⟨cfg.maxIterations - 1, by omega⟩
    have hc0 : (initialCarry cfg prompt reset st).cancelled = false := hc
    have hloop := runLoop_rateLimit_all P cfg provider msgs hp n
      (initialCarry cfg prompt reset st) hc0
    unfold run
    rw [hn, hloop]
    exact ⟨rfl, rfl, rfl⟩

/-- Claim C6 witness. -/
theorem c6_witness :
    callWithRetry rlProvider 0 = RetryOutcome.rateLimitExceeded 4 [12, 40, 60] := by
  have h := (c6_theorem rlProvider rlMsgs (fun i => rfl)).1
  rw [h]
  decide

/-! ## Claim C1 (tool dispatch) -/

/-- Claim C1 (amended): when the arguments string parses as JSON, an
unknown function name yields the textual `Unknown function` tool result, a
raising handler yields the textual `Error executing` tool result (as does
a missing required key, which raises `KeyError` inside the `try` block),
and in all those cases the dispatch loop appends the tool message and
continues; but an arguments string rejected by `json.loads` raises past
the tool-dispatch boundary (the parse happens before the `try` block). -/
theorem c1_theorem (P : EngineParams) (ls lp nm argsStr : List Char) (args : Args)
    (hparse : P.parseArgs argsStr = Except.ok args) :
    ((nm ≠ qName ∧ nm ≠ sName ∧ nm ≠ cName) →
        dispatchToolCall P ls lp nm argsStr
          = Except.ok ("Unknown function: ".toList ++ nm, ls, lp))
    ∧ (∀ e v, nm = qName → argsGet args ("sql".toList) = some v →
        P.queryTool args = Except.error e →
        dispatchToolCall P ls lp nm argsStr
          = Except.ok ("Error executing ".toList ++ qName ++ ": ".toList ++ e,
              argsGetD args ("sql".toList), argsGetD args ("plan".toList)))
    ∧ (nm = qName → argsGet args ("sql".toList) = none →
        dispatchToolCall P ls lp nm argsStr
          = Except.ok ("Error executing ".toList ++ qName ++ ": ".toList
              ++ keyErrorMsg ("sql".toList),
              argsGetD args ("sql".toList), argsGetD args ("plan".toList)))
    ∧ (∀ (e' argsStr' : List Char), P.parseArgs argsStr' = Except.error e' →
        dispatchToolCall P ls lp nm argsStr' = Except.error e')
    ∧ (∀ (h : List Msg) (tu : List ToolCallData) (tc : ToolCallData),
        tc.name = nm → tc.arguments = argsStr →
        (nm ≠ qName ∧ nm ≠ sName ∧ nm ≠ cName) →
        execToolCalls P [tc] h tu ls lp
          = ToolExecResult.ok
              (h ++ [toolMsg tc.id (truncateToolResult ("Unknown function: ".toList ++ nm))])
              (tu ++ [tc]) ls lp) := by
  have hunknown : (nm ≠ qName ∧ nm ≠ sName ∧ nm ≠ cName) →
      dispatchToolCall P ls lp nm argsStr
        = Except.ok ("Unknown function: ".toList ++ nm, ls, lp) := by
    intro hnm
    simp only [dispatchToolCall, hparse, execToolBody, if_neg hnm.1, if_neg hnm.2.1,
      if_neg hnm.2.2]
  refine ⟨hunknown, ?_, ?_, ?_, ?_⟩
  · intro e v hq hsql herr
    subst hq
    simp only [dispatchToolCall, hparse, execToolBody, hsql, herr, if_true]
  · intro hq hsql
    subst hq
    simp only [dispatchToolCall, hparse, execToolBody, hsql, if_true]
  · intro e' argsStr' hparse'
    simp only [dispatchToolCall, hparse']
  · intro h tu tc htcn htca hnm
    rw [show execToolCalls P [tc] h tu ls lp
      = (match dispatchToolCall P ls lp tc.name tc.arguments with
         | Except.error e => ToolExecResult.raised e h tu ls lp
         | Except.ok (res, ls', lp') =>
             execToolCalls P [] (h ++ [toolMsg tc.id (truncateToolResult res)])
               (tu ++ [tc]) ls' lp') from rfl]
    rw [htcn, htca, hunknown hnm]
    rfl

/-- Claim C1 counterexample: a run in which the model requests a
`duckdb_query` call whose arguments string is not valid JSON raises the
`JSONDecodeError` past the tool-dispatch boundary — the run fails instead
of appending a textual tool message and continuing. -/
theorem c1_counterexample :
    (run ceParams ceCfg ceProvider1 ("hello".toList) true freshAgentState).result
      = Except.error ("Expecting value: line 1 column 1 (char 0)".toList) := rfl

/-- Claim C1 witness. -/
theorem c1_witness :
    dispatchToolCall ceParams [] [] ("foo".toList) ("ok".toList)
      = Except.ok ("Unknown function: ".toList ++ "foo".toList, [], []) :=
  (c1_theorem ceParams [] [] ("foo".toList) ("ok".toList) [] rfl).1 (by decide)

/-! ## Post-processor lemmas (claims C7 and C8) -/

theorem bool_eq_false {b : Bool} (h : ¬ b = true) : b = false := by
  cases b
  · rfl
  · exact absurd rfl h

theorem normalize_append (a b : List Char) :
    normalizeForCompare (a ++ b) = normalizeForCompare a ++ normalizeForCompare b := by
  unfold normalizeForCompare
  rw [List.filter_append]

theorem hasSub_pat_insert (pat v w₁ w₂ : List Char) (i : Nat)
    (hfind : findSubIdx pat (lowerStr v) = some i) :
    hasSub pat (lowerStr (v.take i ++ w₁ ++ w₂ ++ v.drop i)) = true := by
  have hp := findSubIdx_some_isPre hfind
  rw [lowerStr_drop] at hp
  rw [lowerStr_append]
  exact hasSub_append_right _ (hasSub_of_isPre hp)

theorem planInsert_hasSql (lp v : List Char)
    (hv : hasSub sqlFenceLit (lowerStr v) = true) :
    hasSub sqlFenceLit (lowerStr (planInsert lp v)) = true := by
  unfold planInsert
  cases hfind : findSubIdx sqlFenceLit (lowerStr v) with
  | none =>
      exfalso
      have hiss := findSubIdx_isSome sqlFenceLit (lowerStr v)
      rw [hfind, hv] at hiss
      exact absurd hiss (by simp)
  | some i => exact hasSub_pat_insert sqlFenceLit v _ _ i hfind

theorem planInsert_hasPlan (lp v : List Char) :
    hasSub planMarkLit (planInsert lp v) = true := by
  unfold planInsert
  cases hfind : findSubIdx sqlFenceLit (lowerStr v) with
  | some i =>
      apply hasSub_append_left
      apply hasSub_append_left
      apply hasSub_append_right
      apply hasSub_append_left
      exact hasSub_self_append _ _
  | none =>
      apply hasSub_append_left
      apply hasSub_append_left
      apply hasSub_append_left
      exact hasSub_self_append _ _

theorem prepend_hasSql (ls r : List Char) :
    hasSub sqlFenceLit
      (lowerStr ("```sql\n".toList ++ ls ++ "\n```\n\n".toList ++ r)) = true := by
  rw [lowerStr_append]
  apply hasSub_append_left
  rw [lowerStr_append]
  apply hasSub_append_left
  rw [lowerStr_append]
  apply hasSub_append_left
  rw [show lowerStr ("```sql\n".toList) = "```sql\n".toList from by decide]
  decide

theorem sqlStage_out_hasSql (ls lp r : List Char) (hls : ls ≠ []) :
    hasSub sqlFenceLit (lowerStr (sqlStage ls lp r)) = true := by
  simp only [sqlStage, if_pos hls]
  by_cases hsql : hasSub sqlFenceLit (lowerStr r) = true
  · simp only [if_pos hsql]
    by_cases hcond : lp ≠ [] ∧ hasSub planMarkLit r = false
    · simp only [if_pos hcond]
      exact planInsert_hasSql lp r hsql
    · simp only [if_neg hcond]
      exact hsql
  · simp only [if_neg hsql]
    by_cases hcond : lp ≠ [] ∧ hasSub planMarkLit r = false
    · simp only [if_pos hcond]
      exact planInsert_hasSql lp _ (prepend_hasSql ls r)
    · simp only [if_neg hcond]
      exact prepend_hasSql ls r

theorem sqlStage_out_hasPlan (ls lp r : List Char) (hls : ls ≠ []) (hlp : lp ≠ []) :
    hasSub planMarkLit (sqlStage ls lp r) = true := by
  simp only [sqlStage, if_pos hls]
  by_cases hplan : hasSub planMarkLit r = true
  · rw [if_neg (by rw [hplan]; simp)]
    by_cases hsql : hasSub sqlFenceLit (lowerStr r) = true
    · simp only [if_pos hsql]
      exact hplan
    · simp only [if_neg hsql]
      exact hasSub_append_right _ hplan
  · rw [if_pos ⟨hlp, bool_eq_false hplan⟩]
    exact planInsert_hasPlan lp _

theorem sqlStage_skip (ls lp u : List Char) (hls : ls ≠ [])
    (h1 : hasSub sqlFenceLit (lowerStr u) = true)
    (h2 : lp ≠ [] → hasSub planMarkLit u = true) :
    sqlStage ls lp u = u := by
  simp only [sqlStage, if_pos hls, if_pos h1]
  by_cases hlp : lp = []
  · rw [if_neg (by simp [hlp])]
  · rw [if_neg (by rw [h2 hlp]; simp)]

theorem sqlStage_idem (ls lp r : List Char) :
    sqlStage ls lp (sqlStage ls lp r) = sqlStage ls lp r := by
  by_cases hls : ls = []
  · have hid : ∀ x : List Char, sqlStage ls lp x = x := by
      intro x
      unfold sqlStage
      rw [if_neg (by simp [hls])]
    rw [hid, hid]
  · exact sqlStage_skip ls lp _ hls (sqlStage_out_hasSql ls lp r hls)
      (fun hlp => sqlStage_out_hasPlan ls lp r hls hlp)

theorem tableInjection_idem (tu : List ToolCallData) (h : List Msg) (r : List Char) :
    tableInjection tu h (tableInjection tu h r) = tableInjection tu h r := by
  simp only [tableInjection]
  by_cases huq : (tu.any (fun t => t.name == qName)) = true
  · simp only [if_pos huq]
    by_cases hsel : (selectBestQuery tu h).1 ≠ [] ∧ (selectBestQuery tu h).2 > 0
    · simp only [if_pos hsel]
      by_cases hmd : pipeTableToMarkdown (extractTabularLines (selectBestQuery tu h).1) ≠ []
      · simp only [if_pos hmd]
        by_cases hcont : hasSub
            (normalizeForCompare (pipeTableToMarkdown (extractTabularLines (selectBestQuery tu h).1)))
            (normalizeForCompare r) = true
        · simp only [if_pos hcont]
        · simp only [if_neg hcont]
          have hc2 : hasSub
              (normalizeForCompare (pipeTableToMarkdown (extractTabularLines (selectBestQuery tu h).1)))
              (normalizeForCompare (r ++ "\n\n".toList
                ++ pipeTableToMarkdown (extractTabularLines (selectBestQuery tu h).1))) = true := by
            rw [normalize_append]
            exact hasSub_append_self _ _
          simp only [if_pos hc2]
      · simp only [if_neg hmd]
    · simp only [if_neg hsel]
  · simp only [bool_eq_false huq, Bool.false_eq_true, if_false]

theorem chartCore_idem (cj r : List Char) :
    chartCore cj (chartCore cj r) = chartCore cj r := by
  by_cases hchart : hasSub chartFenceLit (lowerStr r) = true
  · by_cases hcond : hasSub sqlKeyLit cj ∧ hasSub sqlKeyLit r = false
    · have hstep : chartCore cj r = replaceFirstChartBlock r cj := by
        unfold chartCore
        rw [if_pos hchart, if_pos hcond]
      cases hf1 : findSubIdx chartHdrLit (lowerStr r) with
      | none =>
          have hrepl : replaceFirstChartBlock r cj = r := by
            unfold replaceFirstChartBlock
            rw [hf1]
          rw [hstep, hrepl, hstep]
          exact hrepl
      | some i =>
          cases hf2 : findSubIdx ("```".toList) (r.drop (i + chartHdrLit.length)) with
          | none =>
              have hrepl : replaceFirstChartBlock r cj = r := by
                unfold replaceFirstChartBlock
                rw [hf1]
                show (match findSubIdx ("```".toList) (r.drop (i + chartHdrLit.length)) with
                      | none => r
                      | some j => r.take i ++ chartHdrLit ++ cj ++ "\n```".toList
                          ++ (r.drop (i + chartHdrLit.length)).drop (j + 3)) = r
                rw [hf2]
              rw [hstep, hrepl, hstep]
              exact hrepl
          | some j =>
              have hrepl : replaceFirstChartBlock r cj
                  = r.take i ++ chartHdrLit ++ cj ++ "\n```".toList
                      ++ (r.drop (i + chartHdrLit.length)).drop (j + 3) := by
                unfold replaceFirstChartBlock
                rw [hf1]
                show (match findSubIdx ("```".toList) (r.drop (i + chartHdrLit.length)) with
                      | none => r
                      | some j => r.take i ++ chartHdrLit ++ cj ++ "\n```".toList
                          ++ (r.drop (i + chartHdrLit.length)).drop (j + 3)) = _
                rw [hf2]
              have hchart_o : hasSub chartFenceLit (lowerStr (r.take i ++ chartHdrLit
                  ++ cj ++ "\n```".toList
                  ++ (r.drop (i + chartHdrLit.length)).drop (j + 3))) = true := by
                rw [lowerStr_append]
                apply hasSub_append_left
                rw [lowerStr_append]
                apply hasSub_append_left
                rw [lowerStr_append]
                apply hasSub_append_left
                rw [lowerStr_append]
                apply hasSub_append_right
                rw [show lowerStr chartHdrLit = chartHdrLit from by decide]
                decide
              have hcj_o : hasSub sqlKeyLit (r.take i ++ chartHdrLit
                  ++ cj ++ "\n```".toList
                  ++ (r.drop (i + chartHdrLit.length)).drop (j + 3)) = true := by
                apply hasSub_append_left
                apply hasSub_append_left
                exact hasSub_trans hcond.1 (hasSub_append_self _ _)
              rw [hstep, hrepl]
              unfold chartCore
              rw [if_pos hchart_o]
              rw [if_neg (by rw [hcj_o]; simp)]
    · have hstep : chartCore cj r = r := by
        unfold chartCore
        rw [if_pos hchart, if_neg hcond]
      rw [hstep]
      exact hstep
  · have hstep : chartCore cj r = chartHdrLit ++ cj ++ "\n```\n\n".toList ++ r := by
      unfold chartCore
      rw [if_neg hchart]
    rw [hstep]
    have hchart_o : hasSub chartFenceLit
        (lowerStr (chartHdrLit ++ cj ++ "\n```\n\n".toList ++ r)) = true := by
      rw [lowerStr_append]
      apply hasSub_append_left
      rw [lowerStr_append]
      apply hasSub_append_left
      rw [lowerStr_append]
      rw [show lowerStr chartHdrLit = chartHdrLit from by decide]
      apply hasSub_append_left
      decide
    unfold chartCore
    rw [if_pos hchart_o]
    by_cases hsql : hasSub sqlKeyLit cj = true
    · have hcj_o : hasSub sqlKeyLit (chartHdrLit ++ cj ++ "\n```\n\n".toList ++ r) = true := by
        apply hasSub_append_left
        apply hasSub_append_left
        exact hasSub_trans hsql (hasSub_append_self _ _)
      rw [if_neg (by rw [hcj_o]; simp)]
    · rw [if_neg (fun hc => hsql hc.1)]

theorem chartInjection_idem (P : EngineParams) (tu : List ToolCallData) (h : List Msg)
    (r : List Char) :
    chartInjection P tu h (chartInjection P tu h r) = chartInjection P tu h r := by
  simp only [chartInjection]
  split
  · by_cases hC : (tu.any fun t => t.name == cName) = true ∧ findChartJson P.chartLike h ≠ []
    · simp only [if_pos hC]
      exact chartCore_idem _ _
    · simp only [if_neg hC]
  · have hC : ¬((tu.any fun t => t.name == cName) = true ∧ ([] : List Char) ≠ []) := by simp
    simp only [if_neg hC]

/-- Claim C7 (amended): each of the three rewrites is individually
idempotent — re-applying the chart rewrite, the tabular rewrite or the
SQL/plan rewrite to its own output returns it unchanged — and the composed
pass applied to its own output returns that output unchanged whenever the
chart and table rewrites do not re-trigger on it.  (Unconditional composed
idempotence fails: see the counterexample, where the inserted plan marker
splits the injected table so the table rewrite re-triggers.) -/
theorem c7_theorem (P : EngineParams) (tu : List ToolCallData) (h : List Msg)
    (ls lp r : List Char)
    (H1 : chartInjection P tu h (postProcess P tu h ls lp r) = postProcess P tu h ls lp r)
    (H2 : tableInjection tu h (postProcess P tu h ls lp r) = postProcess P tu h ls lp r) :
    (∀ x, chartInjection P tu h (chartInjection P tu h x) = chartInjection P tu h x)
    ∧ (∀ x, tableInjection tu h (tableInjection tu h x) = tableInjection tu h x)
    ∧ (∀ a b x, sqlStage a b (sqlStage a b x) = sqlStage a b x)
    ∧ postProcess P tu h ls lp (postProcess P tu h ls lp r) = postProcess P tu h ls lp r := by
  refine ⟨fun x => chartInjection_idem P tu h x, fun x => tableInjection_idem tu h x,
    fun a b x => sqlStage_idem a b x, ?_⟩
  rw [show postProcess P tu h ls lp (postProcess P tu h ls lp r)
    = sqlStage ls lp (tableInjection tu h (chartInjection P tu h (postProcess P tu h ls lp r)))
    from rfl]
  rw [H1, H2]
  rw [show postProcess P tu h ls lp r
    = sqlStage ls lp (tableInjection tu h (chartInjection P tu h r)) from rfl]
  exact sqlStage_idem ls lp _

/-- Claim C7 counterexample: with a trace containing one `duckdb_query`
result whose table cell contains a fenced-SQL opener, a captured SQL and
plan, and the answer `"hi"`, applying the post-processing pass twice does
not equal applying it once — the plan marker inserted before the first
`"```"`sql occurrence splits the injected table, and the second pass
appends the table again. -/
theorem c7_counterexample :
    postProcess ceParams c7tu c7h ("S".toList) ("P".toList)
        (postProcess ceParams c7tu c7h ("S".toList) ("P".toList) c7r)
      ≠ postProcess ceParams c7tu c7h ("S".toList) ("P".toList) c7r := by decide

/-- Claim C7 witness. -/
theorem c7_witness :
    postProcess ceParams [] [] [] [] (postProcess ceParams [] [] [] [] [])
      = postProcess ceParams [] [] [] [] [] :=
  (c7_theorem ceParams [] [] [] [] [] (by decide) (by decide)).2.2.2

/-! ## Claim C8 (tabular-result selection and injection) -/

theorem selectBestStep_eq (acc : List Char × Int) (c : List Char) :
    selectBestStep acc c
      = if (dataRowCount c : Int) ≥ acc.2 then (c, (dataRowCount c : Int)) else acc := rfl

theorem selectFold_snd (cs : List (List Char)) :
    (cs.foldl selectBestStep ([], -1)).2 = maxRowCount cs := by
  induction cs using List.reverseRecOn with
  | nil => rfl
  | append_singleton cs c ih =>
      rw [show maxRowCount (cs ++ [c])
        = max (maxRowCount cs) ((dataRowCount c : Int)) from by
          unfold maxRowCount
          rw [List.foldl_append, List.foldl_cons, List.foldl_nil]]
      rw [List.foldl_append, List.foldl_cons, List.foldl_nil]
      rw [selectBestStep_eq]
      by_cases hge : (dataRowCount c : Int) ≥ (cs.foldl selectBestStep ([], -1)).2
      · rw [if_pos hge]
        rw [ih] at hge
        exact (max_eq_right hge).symm
      · rw [if_neg hge]
        rw [ih] at hge ⊢
        exact (max_eq_left (le_of_not_le hge)).symm

theorem selectFold_fst (cs : List (List Char)) :
    cs ≠ [] →
      (cs.foldl selectBestStep ([], -1)).1
        = (((cs.filter (fun c => decide ((dataRowCount c : Int) = maxRowCount cs))).getLast?).getD
            []) := by
  induction cs using List.reverseRecOn with
  | nil => intro hcon; exact absurd rfl hcon
  | append_singleton cs c ih =>
      intro _
      have hmax : maxRowCount (cs ++ [c])
          = max (maxRowCount cs) ((dataRowCount c : Int)) := by
        unfold maxRowCount
        rw [List.foldl_append, List.foldl_cons, List.foldl_nil]
      rw [List.foldl_append, List.foldl_cons, List.foldl_nil]
      rw [selectBestStep_eq]
      by_cases hge : (dataRowCount c : Int) ≥ (cs.foldl selectBestStep ([], -1)).2
      · rw [if_pos hge]
        have hmax' : maxRowCount (cs ++ [c]) = (dataRowCount c : Int) := by
          rw [hmax]
          rw [selectFold_snd] at hge
          exact max_eq_right hge
        rw [List.filter_append, hmax']
        have hfc : ([c].filter (fun x => decide ((dataRowCount x : Int) = (dataRowCount c : Int))))
            = [c] := by simp
        rw [hfc]
        rw [List.getLast?_concat]
        rfl
      · rw [if_neg hge]
        rw [selectFold_snd] at hge
        have hcs : cs ≠ [] := by
          intro hnil
          apply hge
          rw [hnil]
          show (dataRowCount c : Int) ≥ -1
          omega
        have hlt : (dataRowCount c : Int) < maxRowCount cs := lt_of_not_ge hge
        have hmax' : maxRowCount (cs ++ [c]) = maxRowCount cs := by
          rw [hmax]
          exact max_eq_left (le_of_lt hlt)
        rw [List.filter_append, hmax']
        have hfc : ([c].filter (fun x => decide ((dataRowCount x : Int) = maxRowCount cs)))
            = [] := by
          simp only [List.filter_cons, List.filter_nil]
          rw [if_neg (by simp [ne_of_lt hlt])]
        rw [hfc, List.append_nil]
        exact ih hcs

/-- Claim C8: the tabular-result injection selects among this run's query
tool results the one with the greatest data-row count, ties resolved in
favor of the later result (the fold keeps the last candidate attaining the
maximum); and for the concrete scenario — a single query result
`"| id | name |\n| --- | --- |\n| 1 | Pickup |"` with an answer containing
no pipe character — exactly that table is appended, separated from the
answer by a blank line. -/
theorem c8_theorem (tu : List ToolCallData) (h : List Msg) (ans : List Char) :
    ((selectBestQuery tu h).2 = maxRowCount (queryCandidates tu h)
      ∧ (queryCandidates tu h ≠ [] →
          (selectBestQuery tu h).1
            = (((queryCandidates tu h).filter
                (fun c => decide ((dataRowCount c : Int)
                  = maxRowCount (queryCandidates tu h)))).getLast?).getD []))
    ∧ ('|' ∉ ans → ∀ (qid args : List Char), qid ≠ [] →
        tableInjection [⟨qid, qName, args⟩] [toolMsg qid scenarioTable] ans
          = ans ++ "\n\n".toList ++ scenarioTable) := by
  constructor
  · exact ⟨selectFold_snd _, fun hne => selectFold_fst _ hne⟩
  · intro hpipe qid args hqid
    have hcand : queryCandidates [⟨qid, qName, args⟩] [toolMsg qid scenarioTable]
        = [scenarioTable] := by
      simp [queryCandidates, currentQueryIds, toolMsg, hqid]
    have hsel : selectBestQuery [⟨qid, qName, args⟩] [toolMsg qid scenarioTable]
        = (scenarioTable, 2) := by
      rw [selectBestQuery, hcand]
      decide
    simp only [tableInjection]
    rw [if_pos (by simp : (([⟨qid, qName, args⟩] : List ToolCallData).any
      (fun t => t.name == qName)) = true)]
    rw [hsel]
    rw [if_pos (by decide : (scenarioTable, (2 : Int)).1 ≠ [] ∧ (scenarioTable, (2 : Int)).2 > 0)]
    rw [show pipeTableToMarkdown (extractTabularLines (scenarioTable, (2 : Int)).1)
      = scenarioTable from by decide]
    rw [if_pos (by decide : scenarioTable ≠ [])]
    rw [if_neg ?_]
    · intro hcon
      have hp : '|' ∈ normalizeForCompare scenarioTable := by decide
      have h1 := mem_of_hasSub hcon hp
      exact hpipe (List.mem_of_mem_filter h1)

/-- Claim C8 witness. -/
theorem c8_witness :
    tableInjection c8tu c8h c8ans = c8ans ++ "\n\n".toList ++ scenarioTable :=
  (c8_theorem c8tu c8h c8ans).2 (by decide) ("q1".toList) [] (by decide)

/-! ## Claim C5 (ExecutionMetadata on exit paths) -/

/-- Claim C5 (amended): fresh ExecutionMetadata built from the run's
accumulated counters is computed and stored on the final-answer and
max-iterations exits; but the cancellation check is a hard early return
that skips the metadata store — it returns the fixed cancellation string
with the previous `executionMetadata` left in place (and the flag
cleared).  The unconditional "regardless of exit path" reading is
therefore false: see the counterexample, where a cancelled run leaves the
metadata `none`. -/
theorem c5_theorem (P : EngineParams) (cfg : AgentConfig) (provider : Nat → CallResult)
    (prompt : List Char) (reset : Bool) (st : AgentState) :
    (∀ content iters c,
        runLoop P cfg provider cfg.maxIterations 0 (initialCarry cfg prompt reset st)
          = LoopExit.finished content iters c →
        (run P cfg provider prompt reset st).state.executionMetadata
          = some (mkMetadata c.toolsUsed c.promptTokens c.completionTokens
              c.apiCalls iters cfg.model))
    ∧ (∀ c,
        runLoop P cfg provider cfg.maxIterations 0 (initialCarry cfg prompt reset st)
          = LoopExit.exhausted c →
        (run P cfg provider prompt reset st).state.executionMetadata
          = some (mkMetadata c.toolsUsed c.promptTokens c.completionTokens
              c.apiCalls cfg.maxIterations cfg.model))
    ∧ (st.cancelled = true → 0 < cfg.maxIterations →
        (run P cfg provider prompt reset st).result = Except.ok cancelMsg
        ∧ (run P cfg provider prompt reset st).state.executionMetadata = st.executionMetadata
        ∧ (run P cfg provider prompt reset st).state.cancelled = false) := by
  refine ⟨?_, ?_, ?_⟩
  · intro content iters c h
    unfold run
    rw [h]
  · intro c h
    unfold run
    rw [h]
  · intro hc hmax
    obtain ⟨n, hn⟩ : ∃ n, cfg.maxIterations = n + 1 := ⟨cfg.maxIterations - 1, by omega⟩
    have hc0 : (initialCarry cfg prompt reset st).cancelled = true := hc
    have hloop : runLoop P cfg provider (n + 1) 0 (initialCarry cfg prompt reset st)
        = LoopExit.cancelled { initialCarry cfg prompt reset st with cancelled := false } := by
      rw [runLoop]
      rw [if_pos hc0]
    unfold run
    rw [hn, hloop]
    exact ⟨rfl, rfl, rfl⟩

/-- Claim C5 counterexample: running the agent from a state whose
cancellation flag is set returns the fixed cancellation string and leaves
`executionMetadata` at its previous value `none` — no fresh metadata is
stored on the cancellation exit. -/
theorem c5_counterexample :
    (run ceParams ceCfg ceProvider0 ("p".toList) false cancelledState).result
        = Except.ok cancelMsg
    ∧ (run ceParams ceCfg ceProvider0 ("p".toList) false cancelledState).state.executionMetadata
        = none := by
  exact ⟨rfl, rfl⟩

/-- Claim C5 witness. -/
theorem c5_witness :
    (run ceParams ceCfg ceProvider0 ("p".toList) false cancelledState).state.cancelled
      = false :=
  ((c5_theorem ceParams ceCfg ceProvider0 ("p".toList) false cancelledState).2.2
    rfl (by decide)).2.2

/-! ## Claim C9 (corrupted-conversation retry) -/

/-- Claim C9 (amended): only the streaming variant implements the
corrupted-conversation recovery.  `run_chat_stream` retries the agent run
exactly once with `reset=True` when the first run fails with an error whose
lowercased text matches the corrupted-conversation detection, surfacing the
retry's result instead of the first failure; a non-matching failure
re-raises.  `run_chat` awaits the agent run with no exception handling at
all, so its first failure — corrupted-conversation or not — propagates to
the caller.  The claim's universal reading over both operations is
therefore false: see the counterexample. -/
theorem c9_theorem (agentRun : Nat → Bool → Except (List Char) (List Char))
    (reset : Bool) :
    (runChatAgentResult agentRun reset = agentRun 0 reset)
    ∧ (∀ e, agentRun 0 reset = Except.error e → isCorruptedConversationError e = true →
        runChatStreamAgentResult agentRun reset = agentRun 1 true)
    ∧ (∀ e, agentRun 0 reset = Except.error e → isCorruptedConversationError e = false →
        runChatStreamAgentResult agentRun reset = Except.error e)
    ∧ (∀ r, agentRun 0 reset = Except.ok r →
        runChatStreamAgentResult agentRun reset = Except.ok r) := by
  refine ⟨rfl, ?_, ?_, ?_⟩
  · intro e h1 h2
    unfold runChatStreamAgentResult
    rw [h1]
    show (if isCorruptedConversationError e = true then agentRun 1 true else Except.error e)
      = agentRun 1 true
    rw [if_pos h2]
  · intro e h1 h2
    unfold runChatStreamAgentResult
    rw [h1]
    show (if isCorruptedConversationError e = true then agentRun 1 true else Except.error e)
      = Except.error e
    rw [if_neg (by rw [h2]; exact Bool.false_ne_true)]
  · intro r h1
    unfold runChatStreamAgentResult
    rw [h1]

/-- Claim C9 counterexample: with an agent whose first run fails with a
corrupted-conversation error and whose retry would succeed, `run_chat`
surfaces that first failure to the caller unchanged, while
`run_chat_stream` recovers — the retry-once behaviour does not hold for
the plain `run_chat` operation. -/
theorem c9_counterexample :
    runChatAgentResult ceAgentRun false = Except.error corruptedErr
    ∧ isCorruptedConversationError corruptedErr = true
    ∧ runChatStreamAgentResult ceAgentRun false = Except.ok ("recovered".toList) := by
  exact ⟨rfl, by decide, rfl⟩

/-- Claim C9 witness. -/
theorem c9_witness :
    runChatStreamAgentResult ceAgentRun false = ceAgentRun 1 true :=
  (c9_theorem ceAgentRun false).2.1 corruptedErr rfl (by decide)
